import Mathlib

/-!
Verification development for the generation-and-orchestration core of the
`startups.org.ai` repository.

The TypeScript source is shallowly embedded:

* pure functions become Lean functions;
* `async` functions whose only suspension points are calls to the external
  AI collaborator become functions in the `Except` monad, parameterized by
  an oracle record that maps each prompt to either a structured result or
  an error (`await f(x)` is `← oracle.f x`; a rejected promise is
  `Except.error`);
* JavaScript `Map` results are association lists in insertion order;
* `Date.now()` becomes an explicit `now : Nat` argument.

Components of the specification whose implementation is absent from the
source snapshot (the Filter Engine, Cross-Product Generator, Viability
Scorer aggregation and the Pipeline Orchestrator exist only as Zod
signatures and schema declarations) are modelled from the specification
text; each such definition carries a doc comment starting with
`Modelled from the spec:`.
-/

namespace Startups

/-! ## String helpers (embeddings of the JavaScript string operations) -/

/-- Embedding of JavaScript `String.prototype.toLowerCase` for the ASCII
strings used by the core (entity ids, hypothesis ids). -/
def lowerStr (s : String) : String :=
  ⟨s.data.map Char.toLower⟩

/-- One base-36 digit as produced by JavaScript `Number.prototype.toString(36)`:
`0`–`9` then lowercase `a`–`z`. -/
def base36Char (d : Nat) : Char :=
  if d < 10 then Char.ofNat (48 + d) else Char.ofNat (87 + d)

/-- Digits of `n` in base 36, most significant first; `fuel` bounds the
recursion and is always supplied as `n + 1`, which is sufficient since the
value shrinks by a factor of 36 each step. -/
def toBase36Aux : Nat → Nat → List Char
  | 0, _ => []
  | fuel + 1, n =>
    if n < 36 then [base36Char n]
    else toBase36Aux fuel (n / 36) ++ [base36Char (n % 36)]

/-- Embedding of JavaScript `n.toString(36)` for non-negative integers. -/
def toBase36 (n : Nat) : String :=
  ⟨toBase36Aux (n + 1) n⟩

/-- Characters kept by the sanitizer regex `/[^a-z0-9-]/g` replacement in
`generateConceptId` (source `src/ai/generate-concept.ts`). -/
def keepIdChar (c : Char) : Bool :=
  (Char.ofNat 97 ≤ c && c ≤ Char.ofNat 122) ||
  (Char.ofNat 48 ≤ c && c ≤ Char.ofNat 57) ||
  c == Char.ofNat 45

/-- Embedding of `s.replace(/[^a-z0-9-]/g, '')`. -/
def sanitizeId (s : String) : String :=
  ⟨s.data.filter keepIdChar⟩

/-- `matchAt pat l` holds when `pat` occurs at the head of `l`
(character-wise). -/
def matchAt : List Char → List Char → Bool
  | [], _ => true
  | _ :: _, [] => false
  | p :: ps, c :: cs => p == c && matchAt ps cs

/-- `hasSub pat l` holds when `pat` occurs contiguously somewhere in `l`;
used for the case-insensitive substring reading of the name-pattern filter
(spec §4.1, implementer's choice, documented here). -/
def hasSub (pat : List Char) : List Char → Bool
  | [] => matchAt pat []
  | c :: cs => matchAt pat (c :: cs) || hasSub pat cs

/-! ## Ontology entities (src/ontology.ts)

Zod schemas `OntologyEntity`, `Occupation`, `Industry`, `Process`, `Task`.
The literal `ns`/`type` tags are kept as plain string fields. -/

/-- `Industry` (src/ontology.ts): `OntologyEntity` extended with a NAICS
hierarchy `level`. -/
structure Industry where
  ns : String
  tyName : String
  id : String
  name : String
  description : String
  code : String
  shortName : String
  sourceType : String
  level : Int
deriving DecidableEq

/-- `Occupation` (src/ontology.ts): `OntologyEntity` extended with an
O*NET SOC `occupationCode`. -/
structure Occupation where
  ns : String
  tyName : String
  id : String
  name : String
  description : String
  code : String
  shortName : String
  sourceType : String
  occupationCode : String
deriving DecidableEq

/-- `Process` (src/ontology.ts): `OntologyEntity` extended with an APQC
hierarchy `level`. -/
structure Process where
  ns : String
  tyName : String
  id : String
  name : String
  description : String
  code : String
  shortName : String
  sourceType : String
  level : Int
deriving DecidableEq

/-- `Task` (src/ontology.ts): `OntologyEntity` extended with the
verb/object decomposition fields. -/
structure Task where
  ns : String
  tyName : String
  id : String
  name : String
  description : String
  code : String
  shortName : String
  sourceType : String
  verb : String
  obj : String
  preposition : Option String
  prepObject : Option String
  source : String
deriving DecidableEq

/-! ## Enrichment result shapes (src/ai/enrich-industry.ts AI schemas)

These records carry the structured results returned by the external
AI collaborator.  The core never interprets the string contents; field
names follow the `industryAI` schema. The Zod `type` keys are rendered as
`*Type`-suffixed fields since `type` is a Lean keyword. -/

/-- `marketDynamics` sub-record of a business type. -/
structure MarketDynamics where
  competitiveness : String
  consolidation : String
  barriers : String
  regulation : String
deriving DecidableEq

/-- `economics` sub-record of a business type. -/
structure BTEconomics where
  typicalMargins : String
  capitalIntensity : String
  timeToRevenue : String
  scalability : String
deriving DecidableEq

/-- `typicalGTM` sub-record of a business type. -/
structure BTGtm where
  salesCycle : String
  aov : String
  channels : List String
  buyerPersonas : List String
deriving DecidableEq

/-- `aiOpportunity` sub-record of a business type. -/
structure BTAiOpportunity where
  automationPotential : String
  disruptionRisk : String
  aiUseCases : List String
deriving DecidableEq

/-- One element of the `businessTypes.types` AI result. -/
structure BusinessType where
  id : String
  name : String
  category : String
  description : String
  marketDynamics : MarketDynamics
  economics : BTEconomics
  typicalGTM : BTGtm
  aiOpportunity : BTAiOpportunity
deriving DecidableEq

/-- The `businessTypes` AI result wrapper. -/
structure BusinessTypesResult where
  types : List BusinessType
deriving DecidableEq

/-- One customer segment of the business model canvas. -/
structure CustomerSegmentCanvas where
  segment : String
  description : String
  size : String
  willingness : String
  accessibility : String
deriving DecidableEq

/-- One value proposition of the business model canvas. -/
structure ValuePropositionCanvas where
  proposition : String
  customerJobs : List String
  pains : List String
  gains : List String
deriving DecidableEq

/-- One channel of the business model canvas. -/
structure CanvasChannel where
  chanType : String
  effectiveness : String
  cost : String
deriving DecidableEq

/-- One customer-relationship entry of the business model canvas. -/
structure CanvasRelationship where
  relType : String
  description : String
deriving DecidableEq

/-- One revenue stream of the business model canvas. -/
structure RevenueStream where
  streamType : String
  description : String
  percentage : ℚ
deriving DecidableEq

/-- Cost structure of the business model canvas. -/
structure CostStructure where
  costType : String
  fixedCosts : List String
  variableCosts : List String
deriving DecidableEq

/-- The `businessModelCanvas` AI result. -/
structure BusinessModelCanvas where
  customerSegments : List CustomerSegmentCanvas
  valuePropositions : List ValuePropositionCanvas
  channels : List CanvasChannel
  customerRelationships : List CanvasRelationship
  revenueStreams : List RevenueStream
  keyResources : List String
  keyActivities : List String
  keyPartners : List String
  costStructure : CostStructure
deriving DecidableEq

/-- The `competitiveLandscape` AI result. -/
structure CompetitiveLandscape where
  marketLeaders : List String
  emergingPlayers : List String
  disruptors : List String
  consolidationTrends : String
deriving DecidableEq

/-- One element of the `industryTrends.trends` AI result. -/
structure IndustryTrend where
  trend : String
  description : String
  impact : String
  timeframe : String
  opportunity : String
deriving DecidableEq

/-- The `industryTrends` AI result wrapper. -/
structure IndustryTrendsResult where
  trends : List IndustryTrend
deriving DecidableEq

/-- The `aiReadiness` AI result. -/
structure AIReadiness where
  dataAvailability : String
  processStandardization : String
  aiAdoption : String
  topAIUseCases : List String
deriving DecidableEq

/-- The `marketSize` AI result. -/
structure MarketSize where
  tam : String
  sam : String
  growth : String
deriving DecidableEq

/-- `EnrichedIndustry` as constructed by `enrichIndustry`
(src/ai/enrich-industry.ts, compile step): every field is total, so a
well-typed result never lacks a field. -/
structure EnrichedIndustry where
  industryId : String
  businessTypes : List BusinessType
  businessModelCanvas : BusinessModelCanvas
  competitiveLandscape : CompetitiveLandscape
  trends : List IndustryTrend
  painPoints : List String
  regulations : List String
  technologyAdoption : String
  marketSize : MarketSize
  aiReadiness : AIReadiness
deriving DecidableEq

/-- `EnrichIndustryOptions` (src/ai/enrich-industry.ts): all fields are
optional in TypeScript; destructuring defaults are applied inside
`enrichIndustry`. -/
structure EnrichIndustryOptions where
  depth : Option String := none
  includeCompetitors : Option Bool := none
  includeTrends : Option Bool := none
  includeAIAnalysis : Option Bool := none
deriving DecidableEq

/-- The external AI collaborator behind the `industryAI` functions: each
field maps a rendered prompt to a structured result or a rejection.  A
call that rejects is `Except.error`. -/
structure IndustryAI where
  businessTypes : String → Except String BusinessTypesResult
  businessModelCanvas : String → Except String BusinessModelCanvas
  competitiveLandscape : String → Except String CompetitiveLandscape
  industryTrends : String → Except String IndustryTrendsResult
  aiReadiness : String → Except String AIReadiness
  marketSize : String → Except String MarketSize

/-! ## enrichIndustry (src/ai/enrich-industry.ts) -/

/-- The `industryContext` template string of `enrichIndustry`. -/
def industryContext (industry : Industry) : String :=
  "\nIndustry: " ++ industry.name ++
  "\nDescription: " ++ industry.description ++
  "\nNAICS Code: " ++ industry.code ++
  "\nLevel: " ++ toString industry.level ++
  " (1=sector, 2=subsector, 3=industry group, 4=industry, 5=national industry)\n"

/-- The depth-dependent count fragment
`depth === 'basic' ? '3-5' : depth === 'standard' ? '5-8' : '8-12'`. -/
def depthCount (depth : String) : String :=
  if depth == "basic" then "3-5" else if depth == "standard" then "5-8" else "8-12"

/-- Helper `extractPainPoints` (src/ai/enrich-industry.ts): collects the
`pains` of every value proposition and deduplicates via
`[...new Set(...)]`, which keeps first occurrences in order. -/
def extractPainPoints (canvas : BusinessModelCanvas) : List String :=
  (canvas.valuePropositions.flatMap (fun vp => vp.pains)).eraseDups

/-- Helper `extractRegulations` (src/ai/enrich-industry.ts). -/
def extractRegulations (businessTypes : List BusinessType) : List String :=
  (businessTypes.filter fun bt =>
      bt.marketDynamics.regulation == "heavy" || bt.marketDynamics.regulation == "moderate").map
    fun bt => bt.name ++ ": Significant regulatory requirements"

/-- Helper `determineTechAdoption` (src/ai/enrich-industry.ts). -/
def determineTechAdoption (aiReadiness : Option AIReadiness) : String :=
  match aiReadiness with
  | none => "early-majority"
  | some r =>
    if r.aiAdoption == "embedded" || r.aiAdoption == "scaling" then "innovator"
    else if r.aiAdoption == "piloting" then "early-majority"
    else if r.aiAdoption == "experimenting" then "late-majority"
    else "laggard"

/-- `enrichIndustry` (src/ai/enrich-industry.ts lines 137–263).  Each
`await industryAI.f(prompt)` is a monadic call of the oracle `ai`; the
conditional sections mirror the `includeCompetitors` / `includeTrends` /
`includeAIAnalysis` branches, and the compile step reproduces the
`competitiveLandscape || {...}` and `aiReadiness || {...}` fallbacks
(`undefined` is `Option.none`; the AI results are records, hence truthy).
The module-level `ensureConfigured()` gate is a side effect with no
bearing on the returned value and is not modelled. -/
def enrichIndustry (ai : IndustryAI) (industry : Industry)
    (options : EnrichIndustryOptions) : Except String EnrichedIndustry := do
  let depth := options.depth.getD "standard"
  let includeCompetitors := options.includeCompetitors.getD true
  let includeTrends := options.includeTrends.getD true
  let includeAIAnalysis := options.includeAIAnalysis.getD true
  let ctx := industryContext industry
  let businessTypesPrompt :=
    "\nAnalyze the " ++ industry.name ++ " industry and identify the " ++
    depthCount depth ++
    " most common business types operating in this space.\n\n" ++ ctx ++
    "\n\nFor each business type, provide detailed analysis of market dynamics, economics, go-to-market approach, and AI opportunity.\nFocus on business types that would be relevant for a startup to consider entering.\n"
  let businessTypes ← ai.businessTypes businessTypesPrompt
  let canvasPrompt :=
    "\nCreate a comprehensive Business Model Canvas for a typical successful business in the " ++
    industry.name ++ " industry.\n\n" ++ ctx ++
    "\n\nThis should represent the most common/successful business model pattern in this industry.\nBe specific with real examples where possible.\n"
  let businessModelCanvas ← ai.businessModelCanvas canvasPrompt
  -- the three conditional sections; `id (...)` keeps each conditional a
  -- single awaited expression (matching the source statements) instead of
  -- letting the do-notation elaborator duplicate the continuation
  let competitiveLandscape ←
    id (if includeCompetitors then
      let competitorsPrompt :=
        "\nAnalyze the competitive landscape of the " ++ industry.name ++
        " industry.\n\n" ++ ctx ++
        "\n\nIdentify market leaders, emerging players, and disruptors. Describe consolidation trends.\nFocus on companies that are relevant benchmarks for a new entrant.\n"
      (some · ) <$> ai.competitiveLandscape competitorsPrompt
    else pure none)
  let trends ←
    id (if includeTrends then
      let trendsPrompt :=
        "\nIdentify the " ++ depthCount depth ++
        " most important trends shaping the " ++ industry.name ++
        " industry.\n\n" ++ ctx ++
        "\n\nFor each trend, explain the impact, timeline, and startup opportunities it creates.\nFocus on trends that create opportunities for new entrants.\n"
      (fun r => r.trends) <$> ai.industryTrends trendsPrompt
    else pure ([] : List IndustryTrend))
  let aiReadiness ←
    id (if includeAIAnalysis then
      let aiPrompt :=
        "\nAssess the AI readiness and opportunity in the " ++ industry.name ++
        " industry.\n\n" ++ ctx ++
        "\n\nEvaluate data availability, process standardization, current AI adoption, and the most promising AI use cases.\nBe specific about where AI can create the most value.\n"
      (some · ) <$> ai.aiReadiness aiPrompt
    else pure none)
  let marketSizePrompt :=
    "\nEstimate the market size for the " ++ industry.name ++
    " industry.\n\n" ++ ctx ++
    "\n\nProvide TAM (total addressable market), SAM (serviceable addressable market for a typical startup), and growth rate.\nBase estimates on publicly available data and industry reports.\n"
  let marketSize ← ai.marketSize marketSizePrompt
  let businessTypesArray := businessTypes.types
  pure
    { industryId := industry.id
      businessTypes := businessTypesArray
      businessModelCanvas := businessModelCanvas
      competitiveLandscape := competitiveLandscape.getD
        { marketLeaders := []
          emergingPlayers := []
          disruptors := []
          consolidationTrends := "Not analyzed" }
      trends := trends
      painPoints := extractPainPoints businessModelCanvas
      regulations := extractRegulations businessTypesArray
      technologyAdoption := determineTechAdoption aiReadiness
      marketSize := marketSize
      aiReadiness := aiReadiness.getD
        { dataAvailability := "moderate"
          processStandardization := "defined"
          aiAdoption := "experimenting"
          topAIUseCases := [] } }

/-! ## Batch executor (src/ai/enrich-industry.ts lines 320–342,
src/ai/enrich-occupation.ts lines 414–435, process/task batch helpers)

All four batch functions share the same loop:

```ts
for (let i = 0; i < items.length; i += concurrency) {
  const batch = items.slice(i, i + concurrency)
  const enriched = await Promise.all(batch.map(item => work(item)))
  for (let j = 0; j < batch.length; j++) results.set(batch[j].id, enriched[j])
}
```

`batchLoop` is its embedding, generic in the per-item `work`; the concrete
batch functions instantiate it with their hard-coded concurrency. -/

/-- The consecutive `slice(i, i + c)` chunks taken by the batch loop.  For
`c = 0` the JavaScript loop would not terminate; every call site uses a
positive literal (5 or 3) and all theorems assume `0 < c`, so that case is
mapped to `[]`. -/
def chunksOf (c : Nat) : List α → List (List α)
  | [] => []
  | x :: xs =>
    if c = 0 then []
    else (x :: xs).take c :: chunksOf c ((x :: xs).drop c)
termination_by l => l.length
decreasing_by
  simp only [List.length_drop, List.length_cons]
  omega

/-- `Promise.all` over already-settled outcomes: the first (leftmost)
rejection rejects the whole combination, otherwise all fulfilled values
are collected in order.  (This models the schedule in which settlement
order matches index order; which rejection wins does not affect
`isOk`-level facts.) -/
def promiseAll : List (Except ε β) → Except ε (List β)
  | [] => .ok []
  | x :: xs =>
    match x with
    | .error e => .error e
    | .ok b => (promiseAll xs).map (b :: ·)

/-- The batch loop: each chunk's `work` calls are combined with
`promiseAll` (the `await Promise.all`), their results recorded under the
item keys in order, and only then does the next chunk begin.  A rejection
escapes the `await` and aborts the whole call, exactly as in the source,
where no `try`/`catch` surrounds the loop. -/
def batchLoop (work : α → Except ε β) (key : α → String) (c : Nat) :
    List α → Except ε (List (String × β))
  | [] => .ok []
  | x :: xs =>
    if c = 0 then .ok []
    else do
      let batch := (x :: xs).take c
      let enriched ← promiseAll (batch.map work)
      let rest ← batchLoop work key c ((x :: xs).drop c)
      pure ((batch.map key).zip enriched ++ rest)
termination_by l => l.length
decreasing_by
  simp only [List.length_drop, List.length_cons]
  omega

/-- The items whose `work` call is actually started by `batchLoop`:
`Promise.all(batch.map(work))` creates every promise of the chunk before
any rejection is observed, so a failing chunk still starts all of its
siblings, while the rejection of the `await` prevents every later chunk
from starting. -/
def invokedItems (work : α → Except ε β) (c : Nat) : List α → List α
  | [] => []
  | x :: xs =>
    if c = 0 then []
    else
      let batch := (x :: xs).take c
      if (promiseAll (batch.map work)).isOk then
        batch ++ invokedItems work c ((x :: xs).drop c)
      else batch
termination_by l => l.length
decreasing_by
  simp only [List.length_drop, List.length_cons]
  omega

/-- `enrichIndustriesBatch` (src/ai/enrich-industry.ts lines 320–342):
the batch loop at concurrency 5 with `enrichIndustry` as the unit of work
and `industry.id` as the result key. -/
def enrichIndustriesBatch (ai : IndustryAI) (industries : List Industry)
    (options : EnrichIndustryOptions) : Except String (List (String × EnrichedIndustry)) :=
  batchLoop (fun industry => enrichIndustry ai industry options) (fun industry => industry.id)
    5 industries

/-! ### Observable schedule of one batch run

Within a chunk the `work` calls run concurrently and may finish in any
order; across chunks the `await` forces every call of a chunk to settle
before the next chunk starts.  A schedule is rendered as a list of
start/finish events: each chunk contributes its starts (issued together,
in index order, when `batch.map` runs) followed by its finishes in an
arbitrary order (the permutation hypothesis). -/

/-- A start or finish of the `work` call for one item, tagged with the
index of the chunk it belongs to. -/
inductive BatchEvent (α : Type) where
  | start (chunk : Nat) (item : α)
  | finish (chunk : Nat) (item : α)
deriving DecidableEq

/-- Events of one chunk: all starts first (issued synchronously by
`batch.map`), then the finishes in the order they settle. -/
def chunkEvents (k : Nat) (chunk fins : List α) : List (BatchEvent α) :=
  chunk.map (BatchEvent.start k) ++ fins.map (BatchEvent.finish k)

/-- Events of the chunks from index `k` on, chunk after chunk: the
`await` between loop iterations means no event of a later chunk can
precede one of an earlier chunk. -/
def batchEventsFrom (k : Nat) : List (List α × List α) → List (BatchEvent α)
  | [] => []
  | p :: rest => chunkEvents k p.1 p.2 ++ batchEventsFrom (k + 1) rest

/-- Events of a whole batch run. -/
def batchEvents (sched : List (List α × List α)) : List (BatchEvent α) :=
  batchEventsFrom 0 sched

/-- The chunk an event belongs to. -/
def chunkTag : BatchEvent α → Nat
  | .start k _ => k
  | .finish k _ => k

/-- Predicate: the event is a start. -/
def isStart : BatchEvent α → Bool
  | .start _ _ => true
  | .finish _ _ => false

/-- Predicate: the event is a finish. -/
def isFinish : BatchEvent α → Bool
  | .start _ _ => false
  | .finish _ _ => true

/-- Predicate: a start belonging to chunk `k`. -/
def isStartOf (k : Nat) (e : BatchEvent α) : Bool :=
  isStart e && chunkTag e == k

/-- Predicate: a finish belonging to chunk `k`. -/
def isFinishOf (k : Nat) (e : BatchEvent α) : Bool :=
  isFinish e && chunkTag e == k

/-- `ValidSchedule c items sched` — `sched` pairs every chunk of the run
with the order in which its calls finished: the chunks are exactly
`chunksOf c items`, and each finish order is a permutation of its chunk. -/
def ValidSchedule (c : Nat) (items : List α) (sched : List (List α × List α)) : Prop :=
  sched.map Prod.fst = chunksOf c items ∧ ∀ p ∈ sched, p.2.Perm p.1

/-! ## Hypothesis schema (src/hypothesis.ts, snapshot part_001)

Zod enumerations are carried as strings; the schema range constraints
(priority 1–10, minScore 0–100) reappear as the validity predicate used by
the spec-modelled generator. -/

/-- `ValueProposition` (part_001). -/
structure ValueProposition where
  primary : String
  secondary : Option String
  statement : String
  quantified : Option String
deriving DecidableEq

/-- `PricingStrategy` (part_001). -/
structure PricingStrategy where
  model : String
  freeTrialDays : Option ℚ
  freeTier : Bool
  startingPrice : Option ℚ
  enterpriseCustom : Bool
deriving DecidableEq

/-- `BusinessModel` (part_001). -/
structure BusinessModel where
  bmType : String
  targetCustomer : String
  segments : List String
  delivery : String
  pricing : PricingStrategy
  valueProps : List ValueProposition
  moat : String
deriving DecidableEq

/-- The per-dimension `filter` object of `OntologyDimensionConfig`
(part_001); identical to the spec's `DimensionFilter` (§3). -/
structure DimensionFilter where
  ids : Option (List String) := none
  excludeIds : Option (List String) := none
  levels : Option (List Int) := none
  namePattern : Option String := none
  limit : Option Nat := none
deriving DecidableEq

/-- `OntologyDimensionConfig` (part_001). -/
structure OntologyDimensionConfig where
  enabled : Bool
  filter : Option DimensionFilter
  priority : Nat
deriving DecidableEq

/-- `HypothesisDimensions` (part_001), in declaration order. -/
structure HypothesisDimensions where
  occupations : OntologyDimensionConfig
  industries : OntologyDimensionConfig
  processes : OntologyDimensionConfig
  tasks : OntologyDimensionConfig
  services : OntologyDimensionConfig
  technologies : OntologyDimensionConfig
deriving DecidableEq

/-- The `constraints` object of `Hypothesis` (part_001 lines 177–182). -/
structure HypothesisConstraints where
  minScore : ℚ
  maxStartups : Option Nat
  requireIndustry : Bool
  requireOccupation : Bool
deriving DecidableEq

/-- `Hypothesis` (part_001). -/
structure Hypothesis where
  id : String
  name : String
  thesis : String
  description : String
  businessModel : BusinessModel
  primaryVerticals : List String
  primarySegments : List String
  dimensions : HypothesisDimensions
  constraints : HypothesisConstraints
  status : String
  createdAt : String
  updatedAt : String
  tags : List String
deriving DecidableEq

/-! ## Concept generation inputs (src/ai/generate-concept.ts, part_005) -/

/-- The `external` layer of a `ProblemStack` (part_005 AI schema). -/
structure ExternalProblem where
  problem : String
  manifestations : List String
  metrics : List String
  villains : List String
  cost : String
deriving DecidableEq

/-- The `internal` layer of a `ProblemStack`. -/
structure InternalProblem where
  feeling : String
  fear : String
  doubt : String
  desire : String
  identity : String
deriving DecidableEq

/-- The `philosophical` layer of a `ProblemStack`. -/
structure PhilosophicalProblem where
  injustice : String
  shouldBe : String
  higherPurpose : String
  villain : String
deriving DecidableEq

/-- `ProblemStack` (StoryBrand-style), shape per the part_005 AI schema. -/
structure ProblemStack where
  id : String
  title : String
  context : String
  external : ExternalProblem
  internal : InternalProblem
  philosophical : PhilosophicalProblem
  stakes : String
  transformation : String
  successLooksLike : String
  guideEmpathy : String
  guideAuthority : String
  plan : List String
  cta : String
deriving DecidableEq

/-- The `aiOpportunity` sub-record of an enriched occupation. -/
structure OccAiOpportunity where
  aiReadiness : String
deriving DecidableEq

/-- `EnrichedOccupation`: its defining module (`src/enrichments.ts`) is
absent from the source snapshot; the shape below carries exactly the
fields that the in-snapshot code reads (part_005 prompt builders and the
occupation batch helpers). -/
structure EnrichedOccupation where
  occupationId : String
  typicalDay : String
  stressors : List String
  aiOpportunity : OccAiOpportunity
  topPainPointIds : List String
  topProblemIds : List String
  budgetAuthority : String
  decisionRole : String
deriving DecidableEq

/-- `GenerateConceptInput` (part_005). -/
structure GenerateConceptInput where
  hypothesis : Hypothesis
  occupation : Option Occupation := none
  industry : Option Industry := none
  process : Option Process := none
  task : Option Task := none
  enrichedOccupation : Option EnrichedOccupation := none
  enrichedIndustry : Option EnrichedIndustry := none
  problemStack : Option ProblemStack := none
deriving DecidableEq

/-- `input.x?.id || 'gen'`: an absent entity or an empty (falsy) id both
fall back to `'gen'`. -/
def idOrGen (o : Option String) : String :=
  match o with
  | none => "gen"
  | some s => if s == "" then "gen" else s

/-- `generateConceptId` (part_005 lines 589–598).  `Date.now()` is the
explicit `now` argument; the suffix is its base-36 rendering, and the
joined, lowercased string is stripped of every character outside
`[a-z0-9-]`. -/
def generateConceptId (input : GenerateConceptInput) (now : Nat) : String :=
  let parts : List String :=
    [input.hypothesis.id,
     idOrGen (input.occupation.map (fun o => o.id)),
     idOrGen (input.industry.map (fun i => i.id)),
     idOrGen (input.process.map (fun p => p.id)),
     toBase36 now]
  sanitizeId (lowerStr (String.intercalate "-" parts))

/-! ## Filter Engine and Cross-Product Generator

No implementation of these components exists in the source snapshot: the
repository declares only the `OntologyDimensionConfig` filter shape and
`Hypothesis.constraints` (part_001) and the `generateConcepts` Zod
signature (src/workflow.ts).  The definitions below are modelled from
spec §4.1–§4.2. -/

/-- `DimensionEntity` (spec §3): stable id, display name, hierarchy
level, description. -/
structure DimensionEntity where
  id : String
  name : String
  level : Int
  description : String
deriving DecidableEq

/-- Modelled from the spec: the Filter Engine `apply` contract (§4.1),
whose implementation is missing from the snapshot (only the
`OntologyDimensionConfig.filter` shape is declared in part_001).  Order of
operations: allow-list, deny-list, level set, name pattern (read here as
case-insensitive substring, the documented implementer's choice), then
cap, truncating to the first `limit` entities in input order. -/
def applyFilter (entities : List DimensionEntity) (filter : DimensionFilter) :
    List DimensionEntity :=
  let s1 := match filter.ids with
    | some allow => entities.filter fun e => allow.contains e.id
    | none => entities
  let s2 := match filter.excludeIds with
    | some deny => s1.filter fun e => !(deny.contains e.id)
    | none => s1
  let s3 := match filter.levels with
    | some ls => s2.filter fun e => ls.contains e.level
    | none => s2
  let s4 := match filter.namePattern with
    | some pat => s3.filter fun e => hasSub (lowerStr pat).data (lowerStr e.name).data
    | none => s3
  match filter.limit with
  | some n => s4.take n
  | none => s4

/-- The six taxonomy dimensions, in the declaration order of
`HypothesisDimensions` (part_001). -/
inductive DimName where
  | occupations | industries | processes | tasks | services | technologies
deriving DecidableEq

/-- Declaration order of the dimensions. -/
def dimDeclOrder : List DimName :=
  [.occupations, .industries, .processes, .tasks, .services, .technologies]

/-- The configuration record of one dimension. -/
def dimConfig (dims : HypothesisDimensions) : DimName → OntologyDimensionConfig
  | .occupations => dims.occupations
  | .industries => dims.industries
  | .processes => dims.processes
  | .tasks => dims.tasks
  | .services => dims.services
  | .technologies => dims.technologies

/-- `ConceptSeed` (spec §3): at most one selected entity per enabled
dimension; a disabled dimension stays `none`. -/
structure ConceptSeed where
  occupation : Option DimensionEntity := none
  industry : Option DimensionEntity := none
  process : Option DimensionEntity := none
  task : Option DimensionEntity := none
  service : Option DimensionEntity := none
  technology : Option DimensionEntity := none
deriving DecidableEq

/-- Select `e` for dimension `d` in a seed. -/
def setDim (s : ConceptSeed) (d : DimName) (e : DimensionEntity) : ConceptSeed :=
  match d with
  | .occupations => { s with occupation := some e }
  | .industries => { s with industry := some e }
  | .processes => { s with process := some e }
  | .tasks => { s with task := some e }
  | .services => { s with service := some e }
  | .technologies => { s with technology := some e }

/-- The enabled dimensions, sorted by descending configured priority with
ties broken by declaration order (spec §4.2); `insertionSort` is stable,
so equal priorities keep declaration order. -/
def sortedAxes (dims : HypothesisDimensions) : List DimName :=
  List.insertionSort
    (fun a b => (dimConfig dims b).priority ≤ (dimConfig dims a).priority)
    (dimDeclOrder.filter fun d => (dimConfig dims d).enabled)

/-- Natural nested-loop enumeration over the given axes: the first axis
(highest priority) is the outermost loop. -/
def crossProduct (filtered : DimName → List DimensionEntity) :
    List DimName → List ConceptSeed
  | [] => [{}]
  | d :: axes =>
    (filtered d).flatMap fun e => (crossProduct filtered axes).map fun s => setDim s d e

/-- Configuration-level errors surfaced synchronously by the generator
(spec §7); an empty required dimension is *not* one of them. -/
inductive GenError where
  | invalidConfig
deriving DecidableEq

/-- The schema range constraints on a strategy (part_001: priority
1–10 for each dimension, `minScore` 0–100). -/
def validHypothesisConfig (cfg : Hypothesis) : Bool :=
  dimDeclOrder.all
    (fun d => 1 ≤ (dimConfig cfg.dimensions d).priority ∧
      (dimConfig cfg.dimensions d).priority ≤ 10) &&
  (0 ≤ cfg.constraints.minScore && cfg.constraints.minScore ≤ 100)

/-- Modelled from the spec: the Cross-Product Generator `generate`
contract (§4.2), whose implementation is missing from the snapshot (the
snapshot's `generateStartupIdeas` delegates idea generation wholesale to
the AI collaborator and performs no cross product).  Invalid
configurations fail synchronously; an empty filtered list for a required
dimension (the `requireIndustry` / `requireOccupation` flags of
part_001's `Hypothesis.constraints`) is a documented empty-result early
exit, not an error; otherwise the product over enabled dimensions is
enumerated in priority order and truncated to `maxStartups`. -/
def generate (filtered : DimName → List DimensionEntity) (cfg : Hypothesis) :
    Except GenError (List ConceptSeed) :=
  if !(validHypothesisConfig cfg) then .error .invalidConfig
  else if cfg.constraints.requireIndustry && (filtered .industries).isEmpty then .ok []
  else if cfg.constraints.requireOccupation && (filtered .occupations).isEmpty then .ok []
  else
    let seeds := crossProduct filtered (sortedAxes cfg.dimensions)
    .ok (match cfg.constraints.maxStartups with
      | some m => seeds.take m
      | none => seeds)

/-! ## Viability Scorer

The snapshot's `scoreStartupConcept` (part_005 lines 490–530) delegates
the whole of scoring — sub-scores, aggregate, tier and recommendation —
to the AI collaborator; the tier thresholds and the aggregation formula
exist in the snapshot only as prompt schema text and as the
`ViabilityScore` Zod shape (part_003).  The scorer below is modelled from
spec §4.4. -/

/-- Quality tiers (part_003 `ViabilityScore.tier` enumeration). -/
inductive Tier where
  | S | A | B | C | D
deriving DecidableEq

/-- Modelled from the spec: the fixed tier thresholds of §4.4
(overall ≥ 90 → S; ≥ 75 → A; ≥ 60 → B; ≥ 40 → C; else D). -/
def tierOf (overall : ℤ) : Tier :=
  if 90 ≤ overall then .S
  else if 75 ≤ overall then .A
  else if 60 ≤ overall then .B
  else if 40 ≤ overall then .C
  else .D

/-- Modelled from the spec: the fixed recommendation mapping of §4.4; the
labels are part_003's `ViabilityScore.recommendation` enumeration. -/
def recommendationOf : Tier → String
  | .S => "pursue-aggressively"
  | .A => "test-hypothesis"
  | .B => "explore-further"
  | .C => "deprioritize"
  | .D => "skip"

/-- The eight scoring dimensions (part_003 `ViabilityScore.dimensions`). -/
inductive DimensionName where
  | marketSize | problemSeverity | solutionFit | competition
  | gtmEase | monetization | defensibility | timing
deriving DecidableEq

/-- The eight dimensions in schema order. -/
def allDimensions : List DimensionName :=
  [.marketSize, .problemSeverity, .solutionFit, .competition,
   .gtmEase, .monetization, .defensibility, .timing]

/-- One supplied dimension score: sub-score 0–100, weight 0–1,
rationale. -/
structure DimensionInput where
  score : ℚ
  weight : ℚ
  rationale : String
deriving DecidableEq

/-- The scorer's error (spec §7): no dimension supplied. -/
inductive ScoreError where
  | insufficientScoringData
deriving DecidableEq

/-- The result shape produced by the modelled scorer, following the
`ViabilityScore` schema of part_003. -/
structure ViabilityScoreResult where
  overall : ℤ
  tier : Tier
  recommendation : String
  dimensions : List (DimensionName × DimensionInput)
deriving DecidableEq

/-- The dimensions actually supplied, in schema order. -/
def suppliedDimensions (ds : DimensionName → Option DimensionInput) :
    List (DimensionName × DimensionInput) :=
  allDimensions.filterMap fun d => (ds d).map fun i => (d, i)

/-- `Σ(score_i * weight_i) / Σ(weight_i)` over the supplied dimensions. -/
def weightedAggregate (supplied : List (DimensionName × DimensionInput)) : ℚ :=
  (supplied.map fun p => p.2.score * p.2.weight).sum /
    (supplied.map fun p => p.2.weight).sum

/-- Modelled from the spec: the Viability Scorer `score` contract (§4.4),
whose aggregation is missing from the snapshot (`scoreStartupConcept`
obtains every number from the AI collaborator).  The aggregate is the
weight-normalized, rounded sum over the supplied dimensions; tier and
recommendation are derived from it; with no supplied dimension the call
fails with `InsufficientScoringData`. -/
def scoreConcept (ds : DimensionName → Option DimensionInput) :
    Except ScoreError ViabilityScoreResult :=
  let supplied := suppliedDimensions ds
  if supplied.isEmpty then .error .insufficientScoringData
  else
    let overall := round (weightedAggregate supplied)
    .ok
      { overall := overall
        tier := tierOf overall
        recommendation := recommendationOf (tierOf overall)
        dimensions := supplied }

/-! ## Workflow data model (src/workflow.ts) -/

/-- The `PipelineStep.status` enumeration exactly as declared at
src/workflow.ts line 492: `z.enum(['pending', 'running', 'completed',
'failed', 'skipped'])`. -/
def pipelineStepStatusValues : List String :=
  ["pending", "running", "completed", "failed", "skipped"]

/-- The `WorkflowExecution.status` enumeration exactly as declared at
src/workflow.ts line 502: `z.enum(['pending', 'running', 'completed',
'failed', 'paused'])`. -/
def workflowExecutionStatusValues : List String :=
  ["pending", "running", "completed", "failed", "paused"]

/-- Step statuses (src/workflow.ts line 492) as an inductive type. -/
inductive StepStatus where
  | pending | running | completed | failed | skipped
deriving DecidableEq

/-- A status is terminal when the step will never change again. -/
def isTerminal : StepStatus → Bool
  | .completed => true
  | .failed => true
  | .skipped => true
  | _ => false

/-- `PipelineStep` (src/workflow.ts lines 484–495).  The opaque
`input`/`output` records (`z.record(z.unknown())`) carry no structure the
orchestrator inspects and are left out; the `function` key is rendered
`fnRef` (`function` is a Lean keyword). -/
structure PipelineStep where
  id : String
  name : String
  phase : String
  fnRef : String
  dependsOn : List String
  status : StepStatus
  error : Option String
deriving DecidableEq

/-- A step definition as supplied when a run is created (no status yet). -/
structure StepDef where
  id : String
  name : String := ""
  phase : String := ""
  fnRef : String := ""
  dependsOn : List String := []
deriving DecidableEq

/-- Entry into the state machine: each step starts `pending` (spec §4.7). -/
def toPipelineStep (d : StepDef) : PipelineStep :=
  { id := d.id
    name := d.name
    phase := d.phase
    fnRef := d.fnRef
    dependsOn := d.dependsOn
    status := .pending
    error := none }

/-- Status of the step named `d` in the current state (first match, as a
map keyed by id would behave). -/
def depStatus (steps : List PipelineStep) (d : String) : Option StepStatus :=
  (steps.find? fun s => s.id == d).map fun s => s.status

/-- Some dependency is `failed` or `skipped`. -/
def badDep (steps : List PipelineStep) (s : PipelineStep) : Bool :=
  s.dependsOn.any fun d =>
    depStatus steps d == some .failed || depStatus steps d == some .skipped

/-- Every dependency is `completed`. -/
def readyDep (steps : List PipelineStep) (s : PipelineStep) : Bool :=
  s.dependsOn.all fun d => depStatus steps d == some .completed

/-- Modelled from the spec: one eligibility decision of the Pipeline
Orchestrator state machine (§4.7), whose implementation is missing from
the snapshot (`executeWorkflow` in src/workflow.ts is only a
`z.function()` signature).  A pending step with a `failed`/`skipped`
dependency transitions directly to `skipped`; a pending step whose
dependencies are all `completed` runs — `oracle` says whether the launched
operation succeeds — and transitions to `completed` or `failed` (the
transient `running` interval is collapsed into the decision); any other
step is left unchanged. -/
def decideStep (prev : List PipelineStep) (oracle : String → Bool)
    (s : PipelineStep) : PipelineStep :=
  if s.status ≠ .pending then s
  else if badDep prev s then { s with status := .skipped }
  else if readyDep prev s then
    if oracle s.id then { s with status := .completed }
    else { s with status := .failed, error := some "step failed" }
  else s

/-- One scan over all steps for eligible work (spec §4.7: "repeatedly
scans for eligible steps"); decisions in a scan read the pre-scan state. -/
def roundScan (oracle : String → Bool) (steps : List PipelineStep) :
    List PipelineStep :=
  steps.map (decideStep steps oracle)

/-- `n` repeated scans. -/
def iterateRounds (oracle : String → Bool) : Nat → List PipelineStep → List PipelineStep
  | 0, st => st
  | n + 1, st => iterateRounds oracle n (roundScan oracle st)

/-- Modelled from the spec: the Pipeline Orchestrator run loop (§4.7).
All steps start `pending`; the orchestrator rescans until quiescence,
which for a well-formed DAG is reached after at most one scan per step. -/
def executeWorkflow (oracle : String → Bool) (defs : List StepDef) :
    List PipelineStep :=
  iterateRounds oracle defs.length (defs.map toPipelineStep)

/-- Step ids are unique and every declared dependency points to an
earlier step of the list (a topologically ordered DAG). -/
def WellFormedDefs (defs : List StepDef) : Prop :=
  (defs.map fun d => d.id).Nodup ∧
  ∀ i, (hi : i < defs.length) → ∀ d ∈ (defs.get ⟨i, hi⟩).dependsOn,
    ∃ j, ∃ hj : j < defs.length, j < i ∧ (defs.get ⟨j, hj⟩).id = d

/-- `TransDep defs b d`: the step named `b` transitively depends on the
step named `d`. -/
inductive TransDep (defs : List StepDef) : String → String → Prop where
  | direct {b d : String} {s : StepDef} :
      s ∈ defs → s.id = b → d ∈ s.dependsOn → TransDep defs b d
  | tail {b m d : String} :
      TransDep defs b m → TransDep defs m d → TransDep defs b d

/-! ## Theorems -/

/-- C9 counterexample: the `WorkflowExecution.status` enumeration declared
at src/workflow.ts line 502 contains no `cancelled` value, refuting the
claim that the overall-status type includes a distinct terminal
`cancelled` value. -/
theorem workflowExecution_no_cancelled_value :
    ¬ ("cancelled" ∈ workflowExecutionStatusValues) := by
  decide

/-- C9 (amended): the `WorkflowExecution` overall-status type is exactly
`pending | running | completed | failed | paused`; it has no `cancelled`
value — `paused` is the closest declared analogue — so the claimed
cancellation protocol has no representation in the source data model. -/
theorem workflowExecution_status_enum :
    workflowExecutionStatusValues = ["pending", "running", "completed", "failed", "paused"] ∧
    ¬ ("cancelled" ∈ workflowExecutionStatusValues) ∧
    "paused" ∈ workflowExecutionStatusValues := by
  refine ⟨rfl, by decide, by decide⟩

/-- C8: applying a `DimensionFilter` that contains only a result cap `n`
returns exactly the first `n` entities of the input in original order —
hence at most `n` of them — and the result is a sublist of the input (no
reordering, no mutation). -/
theorem applyFilter_cap_only (es : List DimensionEntity) (n : Nat) :
    applyFilter es { limit := some n } = es.take n ∧
    (applyFilter es { limit := some n }).length ≤ n ∧
    List.Sublist (applyFilter es { limit := some n }) es := by
  refine ⟨rfl, ?_, ?_⟩
  · simp [applyFilter]
  · simpa [applyFilter] using List.take_sublist n es

/-- C6: for a strategy marking a dimension required (the
`requireIndustry` / `requireOccupation` constraint flags) whose filtered
candidate list for that dimension is empty, seed generation returns the
empty seed list through the `Except.ok` channel — a documented early
exit, not an error. -/
theorem generate_required_empty (filtered : DimName → List DimensionEntity)
    (cfg : Hypothesis) (hvalid : validHypothesisConfig cfg = true) :
    (cfg.constraints.requireIndustry = true → filtered .industries = [] →
      generate filtered cfg = .ok []) ∧
    (cfg.constraints.requireOccupation = true → filtered .occupations = [] →
      generate filtered cfg = .ok []) := by
  constructor
  · intro hreq hempty
    simp [generate, hvalid, hreq, hempty]
  · intro hreq hempty
    simp [generate, hvalid, hreq, hempty]

/-- A concrete strategy used by witnesses: every priority is 5 (valid),
both required-dimension flags set. -/
def wDimensionConfig : OntologyDimensionConfig :=
  { enabled := true, filter := none, priority := 5 }

/-- A concrete strategy used by witnesses (continued). -/
def wHypothesis : Hypothesis :=
  { id := "Agent-First SaaS"
    name := "Agent-first SaaS"
    thesis := "agents buy software"
    description := "headless services for agents"
    businessModel :=
      { bmType := "saas"
        targetCustomer := "agent"
        segments := []
        delivery := "api"
        pricing :=
          { model := "usage"
            freeTrialDays := none
            freeTier := false
            startingPrice := none
            enterpriseCustom := false }
        valueProps := []
        moat := "data" }
    primaryVerticals := []
    primarySegments := []
    dimensions :=
      { occupations := wDimensionConfig
        industries := wDimensionConfig
        processes := wDimensionConfig
        tasks := wDimensionConfig
        services := wDimensionConfig
        technologies := wDimensionConfig }
    constraints :=
      { minScore := 60
        maxStartups := none
        requireIndustry := true
        requireOccupation := true }
    status := "active"
    createdAt := "2025-01-01T00:00:00Z"
    updatedAt := "2025-01-01T00:00:00Z"
    tags := [] }

/-- C6 witness: the early exit observed on a concrete strategy whose
required industry dimension has no candidates. -/
theorem generate_required_empty_witness :
    validHypothesisConfig wHypothesis = true ∧
    wHypothesis.constraints.requireIndustry = true ∧
    generate (fun _ => []) wHypothesis = .ok [] := by
  refine ⟨by decide, rfl, ?_⟩
  exact (generate_required_empty (fun _ => []) wHypothesis (by decide)).1 rfl rfl

/-- C5 (amended): the generated concept id is a function of the strategy
id, the per-dimension entity ids and the call instant only — two calls
agreeing on those (whatever their other fields) return the same id.
Calls at different instants carry different `Date.now()` suffixes, so
equality across repeated calls over the same seed is not guaranteed
(cf. the counterexample). -/
theorem generateConceptId_deterministic (a b : GenerateConceptInput) (now : Nat)
    (hhyp : a.hypothesis.id = b.hypothesis.id)
    (hocc : a.occupation.map (fun o => o.id) = b.occupation.map (fun o => o.id))
    (hind : a.industry.map (fun i => i.id) = b.industry.map (fun i => i.id))
    (hproc : a.process.map (fun p => p.id) = b.process.map (fun p => p.id)) :
    generateConceptId a now = generateConceptId b now := by
  simp [generateConceptId, hhyp, hocc, hind, hproc]

/-- A concrete generation input for the C5 theorems. -/
def wConceptInput : GenerateConceptInput :=
  { hypothesis := wHypothesis
    industry := some
      { ns := "industries.org.ai"
        tyName := "Industry"
        id := "Insurance"
        name := "Insurance"
        description := "carriers and brokers"
        code := "524"
        shortName := "ins"
        sourceType := "NAICS"
        level := 2 } }

/-- The same seed with unrelated fields changed (different strategy name
and thesis, different industry display name) but identical ids. -/
def wConceptInputB : GenerateConceptInput :=
  { hypothesis := { wHypothesis with name := "renamed", thesis := "other" }
    industry := some
      { ns := "industries.org.ai"
        tyName := "Industry"
        id := "Insurance"
        name := "Insurance and Reinsurance"
        description := "different description"
        code := "524"
        shortName := "ins2"
        sourceType := "NAICS"
        level := 3 } }

/-- C5 witness: the determinism theorem applied at two concrete inputs
that agree on all four ids at the same instant. -/
theorem generateConceptId_deterministic_witness :
    wConceptInput.hypothesis.id = wConceptInputB.hypothesis.id ∧
    generateConceptId wConceptInput 1730000000000 =
      generateConceptId wConceptInputB 1730000000000 :=
  ⟨rfl, generateConceptId_deterministic wConceptInput wConceptInputB
    1730000000000 rfl rfl rfl rfl⟩

/-- C5 counterexample: the claim as stated — any two calls with the same
strategy and entity ids return equal ids — fails, because the id embeds a
`Date.now().toString(36)` suffix: the very same input at two different
instants yields different ids. -/
theorem generateConceptId_time_dependent :
    generateConceptId wConceptInput 1730000000000 ≠
      generateConceptId wConceptInput 1730000000001 := by
  decide

/-- C2: every score produced by the scorer has its tier derived from the
overall score by the fixed thresholds — with the boundary scores 90, 75,
60, 40 mapping to S, A, B, C — and its recommendation label derived from
the tier by the fixed mapping; both derivations are total functions, so
equal overall scores always give equal tiers and recommendations. -/
theorem scoreConcept_tier_spec (ds : DimensionName → Option DimensionInput)
    (v : ViabilityScoreResult) (h : scoreConcept ds = .ok v) :
    (v.tier = tierOf v.overall ∧ v.recommendation = recommendationOf v.tier) ∧
    (∀ o : ℤ,
      (tierOf o = .S ↔ 90 ≤ o) ∧
      (tierOf o = .A ↔ 75 ≤ o ∧ o < 90) ∧
      (tierOf o = .B ↔ 60 ≤ o ∧ o < 75) ∧
      (tierOf o = .C ↔ 40 ≤ o ∧ o < 60) ∧
      (tierOf o = .D ↔ o < 40)) ∧
    (tierOf 90 = .S ∧ tierOf 75 = .A ∧ tierOf 60 = .B ∧ tierOf 40 = .C) ∧
    (recommendationOf .S = "pursue-aggressively" ∧
     recommendationOf .A = "test-hypothesis" ∧
     recommendationOf .B = "explore-further" ∧
     recommendationOf .C = "deprioritize" ∧
     recommendationOf .D = "skip") := by
  refine ⟨?_, ?_, by decide, by decide⟩
  · simp only [scoreConcept] at h
    split at h
    · exact absurd h (by simp)
    · have hv := Except.ok.inj h
      subst hv
      exact ⟨rfl, rfl⟩
  · intro o
    unfold tierOf
    split_ifs <;> refine ⟨?_, ?_, ?_, ?_, ?_⟩ <;> simp <;> omega

/-- Concrete dimension scores for the C2 witness: a single supplied
dimension with score 90 and weight one half. -/
def wDimScores : DimensionName → Option DimensionInput
  | .marketSize => some { score := 90, weight := 1/2, rationale := "large TAM" }
  | _ => none

/-- The score the modelled scorer produces on `wDimScores`. -/
def wViability : ViabilityScoreResult :=
  { overall := 90
    tier := .S
    recommendation := "pursue-aggressively"
    dimensions := [(.marketSize, { score := 90, weight := 1/2, rationale := "large TAM" })] }

/-- C2 witness: the tier/recommendation theorem applied to a concrete
scoring call. -/
theorem scoreConcept_tier_spec_witness :
    scoreConcept wDimScores = .ok wViability ∧
    wViability.tier = tierOf wViability.overall ∧
    wViability.recommendation = recommendationOf wViability.tier := by
  have h : scoreConcept wDimScores = .ok wViability := by
    simp [scoreConcept, suppliedDimensions, allDimensions, wDimScores,
      weightedAggregate, wViability]
    decide
  exact ⟨h, (scoreConcept_tier_spec wDimScores wViability h).1⟩

/-- Scale every supplied weight by `c`, leaving scores and rationales
unchanged. -/
def scaleWeights (c : ℚ) (ds : DimensionName → Option DimensionInput) :
    DimensionName → Option DimensionInput :=
  fun d => (ds d).map fun i => { i with weight := c * i.weight }

/-- The supplied-dimension list of a scaled input is the scaled
supplied-dimension list. -/
theorem suppliedDimensions_scale (c : ℚ) (ds : DimensionName → Option DimensionInput) :
    suppliedDimensions (scaleWeights c ds) =
      (suppliedDimensions ds).map fun p => (p.1, { p.2 with weight := c * p.2.weight }) := by
  unfold suppliedDimensions scaleWeights
  rw [List.map_filterMap]
  simp only [Option.map_map, Function.comp_def]

/-- The weight-normalized aggregate is invariant under scaling every
weight by the same nonzero constant. -/
theorem weightedAggregate_scale (c : ℚ) (hc : c ≠ 0)
    (supplied : List (DimensionName × DimensionInput)) :
    weightedAggregate
        (supplied.map fun p => (p.1, { p.2 with weight := c * p.2.weight })) =
      weightedAggregate supplied := by
  unfold weightedAggregate
  rw [List.map_map, List.map_map]
  have h1 :
      ((fun p : DimensionName × DimensionInput => p.2.score * p.2.weight) ∘
        fun p : DimensionName × DimensionInput =>
          (p.1, { p.2 with weight := c * p.2.weight })) =
      fun p : DimensionName × DimensionInput => c * (p.2.score * p.2.weight) := by
    funext p
    simp [Function.comp]
    ring
  have h2 :
      ((fun p : DimensionName × DimensionInput => p.2.weight) ∘
        fun p : DimensionName × DimensionInput =>
          (p.1, { p.2 with weight := c * p.2.weight })) =
      fun p : DimensionName × DimensionInput => c * p.2.weight := by
    funext p
    simp [Function.comp]
  rw [h1, h2]
  have h3 :
      (supplied.map fun p : DimensionName × DimensionInput =>
        c * (p.2.score * p.2.weight)).sum =
      c * (supplied.map fun p : DimensionName × DimensionInput =>
        p.2.score * p.2.weight).sum := by
    simpa using
      List.sum_map_mul_left supplied
        (fun p : DimensionName × DimensionInput => p.2.score * p.2.weight) c
  have h4 :
      (supplied.map fun p : DimensionName × DimensionInput =>
        c * p.2.weight).sum =
      c * (supplied.map fun p : DimensionName × DimensionInput => p.2.weight).sum := by
    simpa using
      List.sum_map_mul_left supplied
        (fun p : DimensionName × DimensionInput => p.2.weight) c
  rw [h3, h4, mul_div_mul_left _ _ hc]

/-- C3: the scorer's overall score is the rounded weight-normalized sum
over the supplied dimensions only, and it is invariant under uniformly
scaling all supplied weights by the same positive constant. -/
theorem scoreConcept_renormalization (ds : DimensionName → Option DimensionInput)
    (c : ℚ) (v : ViabilityScoreResult) (hc : 0 < c)
    (hw : 0 < ((suppliedDimensions ds).map fun p => p.2.weight).sum)
    (h : scoreConcept ds = .ok v) :
    v.overall = round (weightedAggregate (suppliedDimensions ds)) ∧
    (scoreConcept (scaleWeights c ds)).map (fun w => w.overall) = .ok v.overall := by
  have hov : v.overall = round (weightedAggregate (suppliedDimensions ds)) ∧
      (suppliedDimensions ds).isEmpty = false := by
    simp only [scoreConcept] at h
    split at h
    · exact absurd h (by simp)
    · have hv := Except.ok.inj h
      subst hv
      constructor
      · rfl
      · simp_all
  refine ⟨hov.1, ?_⟩
  simp only [scoreConcept]
  rw [suppliedDimensions_scale]
  have hne : ((suppliedDimensions ds).map fun p =>
      (p.1, { p.2 with weight := c * p.2.weight })).isEmpty = false := by
    simpa using hov.2
  rw [hne]
  simp only [Bool.false_eq_true, if_false, Except.map]
  rw [weightedAggregate_scale c (ne_of_gt hc), ← hov.1]

/-- Concrete scores for the C3 witness: two supplied dimensions with
positive weight sum. -/
def wDimScoresB : DimensionName → Option DimensionInput
  | .marketSize => some { score := 90, weight := 2/10, rationale := "large" }
  | .timing => some { score := 60, weight := 1/10, rationale := "now" }
  | _ => none

/-- C3 witness: the renormalization theorem applied at a concrete input
with scale factor 3. -/
theorem scoreConcept_renormalization_witness :
    (0 : ℚ) < 3 ∧
    0 < ((suppliedDimensions wDimScoresB).map fun p => p.2.weight).sum ∧
    (scoreConcept (scaleWeights 3 wDimScoresB)).map (fun w => w.overall) = .ok 80 := by
  have hsum : 0 < ((suppliedDimensions wDimScoresB).map fun p => p.2.weight).sum := by
    simp [suppliedDimensions, allDimensions, wDimScoresB]
    norm_num
  have h : scoreConcept wDimScoresB = .ok
      { overall := 80
        tier := .A
        recommendation := "test-hypothesis"
        dimensions :=
          [(.marketSize, { score := 90, weight := 2/10, rationale := "large" }),
           (.timing, { score := 60, weight := 1/10, rationale := "now" })] } := by
    simp [scoreConcept, suppliedDimensions, allDimensions, wDimScoresB, weightedAggregate]
    norm_num [round_eq, tierOf, recommendationOf]
  refine ⟨by norm_num, hsum, ?_⟩
  exact (scoreConcept_renormalization wDimScoresB 3 _ (by norm_num) hsum h).2

/-- Success of a bound `Except` computation decomposes into successes of
its stages. -/
theorem except_bind_ok {ε α β : Type} {x : Except ε α} {f : α → Except ε β} {b : β} :
    (x >>= f) = .ok b ↔ ∃ a, x = .ok a ∧ f a = .ok b := by
  cases x <;> simp [Bind.bind, Except.bind]

/-- The fixed placeholder competitive landscape used when competitors are
not analyzed (src/ai/enrich-industry.ts lines 243–248). -/
def emptyLandscape : CompetitiveLandscape :=
  { marketLeaders := []
    emergingPlayers := []
    disruptors := []
    consolidationTrends := "Not analyzed" }

/-- The fixed default AI-readiness record used when AI analysis is not
requested (src/ai/enrich-industry.ts lines 254–259). -/
def defaultAIReadiness : AIReadiness :=
  { dataAvailability := "moderate"
    processStandardization := "defined"
    aiAdoption := "experimenting"
    topAIUseCases := [] }

/-- C10: whenever `enrichIndustry` returns, it returns a fully populated
record (`EnrichedIndustry` is a structure of total fields); with
`includeCompetitors = false` the competitive landscape is the fixed
placeholder with empty lists and `"Not analyzed"` trends, with
`includeTrends = false` the trends list is empty, and with
`includeAIAnalysis = false` the AI-readiness field is the fixed default
(`moderate` / `defined` / `experimenting` / no use cases). -/
theorem enrichIndustry_option_defaults (ai : IndustryAI) (industry : Industry)
    (options : EnrichIndustryOptions) (r : EnrichedIndustry)
    (h : enrichIndustry ai industry options = .ok r) :
    (options.includeCompetitors = some false →
      r.competitiveLandscape = emptyLandscape) ∧
    (options.includeTrends = some false → r.trends = []) ∧
    (options.includeAIAnalysis = some false → r.aiReadiness = defaultAIReadiness) := by
  simp only [enrichIndustry, except_bind_ok, id_eq] at h
  obtain ⟨bt, hbt, h⟩ := h
  obtain ⟨canvas, hcanvas, h⟩ := h
  obtain ⟨cl, hcl, h⟩ := h
  obtain ⟨tr, htr, h⟩ := h
  obtain ⟨ar, har, h⟩ := h
  obtain ⟨ms, hms, h⟩ := h
  have hr := Except.ok.inj h
  subst hr
  refine ⟨?_, ?_, ?_⟩
  · intro hopt
    rw [hopt] at hcl
    simp only [Option.getD_some, Bool.false_eq_true, if_false] at hcl
    have hcln : cl = none := by
      simpa [pure, Except.pure] using hcl.symm
    subst hcln
    rfl
  · intro hopt
    rw [hopt] at htr
    simp only [Option.getD_some, Bool.false_eq_true, if_false] at htr
    have htrn : tr = [] := by
      simpa [pure, Except.pure] using htr.symm
    subst htrn
    rfl
  · intro hopt
    rw [hopt] at har
    simp only [Option.getD_some, Bool.false_eq_true, if_false] at har
    have harn : ar = none := by
      simpa [pure, Except.pure] using har.symm
    subst harn
    rfl

/-- A concrete industry for the C10 witness. -/
def wIndustry : Industry :=
  { ns := "industries.org.ai"
    tyName := "Industry"
    id := "Construction"
    name := "Construction"
    description := "builders and contractors"
    code := "23"
    shortName := "con"
    sourceType := "NAICS"
    level := 1 }

/-- A concrete canvas returned by the witness oracle. -/
def wCanvas : BusinessModelCanvas :=
  { customerSegments := []
    valuePropositions := []
    channels := []
    customerRelationships := []
    revenueStreams := []
    keyResources := []
    keyActivities := []
    keyPartners := []
    costStructure := { costType := "cost-driven", fixedCosts := [], variableCosts := [] } }

/-- A concrete oracle for the C10 witness; the three optional analyses
reject, so the hypothesis also checks they are never consulted when the
corresponding flags are off. -/
def wAI : IndustryAI :=
  { businessTypes := fun _ => .ok { types := [] }
    businessModelCanvas := fun _ => .ok wCanvas
    competitiveLandscape := fun _ => .error "not requested"
    industryTrends := fun _ => .error "not requested"
    aiReadiness := fun _ => .error "not requested"
    marketSize := fun _ => .ok { tam := "$2T", sam := "$10B", growth := "4% CAGR" } }

/-- Options turning all three optional sections off. -/
def wOptions : EnrichIndustryOptions :=
  { depth := none
    includeCompetitors := some false
    includeTrends := some false
    includeAIAnalysis := some false }

/-- The record `enrichIndustry` produces on the witness inputs. -/
def wEnriched : EnrichedIndustry :=
  { industryId := "Construction"
    businessTypes := []
    businessModelCanvas := wCanvas
    competitiveLandscape := emptyLandscape
    trends := []
    painPoints := []
    regulations := []
    technologyAdoption := "early-majority"
    marketSize := { tam := "$2T", sam := "$10B", growth := "4% CAGR" }
    aiReadiness := defaultAIReadiness }

/-- C10 witness: the defaults theorem applied to a concrete run with all
three optional sections disabled. -/
theorem enrichIndustry_option_defaults_witness :
    enrichIndustry wAI wIndustry wOptions = .ok wEnriched ∧
    wEnriched.competitiveLandscape = emptyLandscape ∧
    wEnriched.trends = [] ∧
    wEnriched.aiReadiness = defaultAIReadiness := by
  have h : enrichIndustry wAI wIndustry wOptions = .ok wEnriched := rfl
  have hc := enrichIndustry_option_defaults wAI wIndustry wOptions wEnriched h
  exact ⟨h, hc.1 rfl, hc.2.1 rfl, hc.2.2 rfl⟩

/-- A rejected outcome is not ok. -/
@[simp] theorem isOk_error {ε α : Type} (e : ε) :
    (Except.error e : Except ε α).isOk = false := rfl

/-- A fulfilled outcome is ok. -/
@[simp] theorem isOk_ok {ε α : Type} (a : α) :
    (Except.ok a : Except ε α).isOk = true := rfl

/-- `Promise.all` over a chunk's work calls fulfills exactly when every
call does. -/
theorem promiseAll_map_isOk {α β ε : Type} (work : α → Except ε β) (l : List α) :
    (promiseAll (l.map work)).isOk = l.all (fun x => (work x).isOk) := by
  induction l with
  | nil => rfl
  | cons x xs ih =>
    simp only [List.map_cons, promiseAll]
    cases hw : work x with
    | error e => simp [hw]
    | ok b =>
      cases hp : promiseAll (xs.map work) with
      | error e =>
        rw [hp] at ih
        simp only [isOk_error] at ih
        simp [hw, hp, Except.map, ← ih]
      | ok bs =>
        rw [hp] at ih
        simp only [isOk_ok] at ih
        simp [hw, hp, Except.map, ← ih]

/-- The batch loop fulfills exactly when every item's work call does: any
single rejection anywhere rejects the whole batch call. -/
theorem batchLoop_isOk {α β ε : Type} (work : α → Except ε β) (key : α → String)
    (c : Nat) (hc : 0 < c) (items : List α) :
    (batchLoop work key c items).isOk = items.all (fun x => (work x).isOk) := by
  induction items using batchLoop.induct work key c with
  | case1 => simp [batchLoop]
  | case2 x xs hzero => omega
  | case3 x xs hzero ih =>
    rw [batchLoop]
    simp only [if_neg hzero]
    have hsplit : (x :: xs).all (fun y => (work y).isOk) =
        (((x :: xs).take c).all (fun y => (work y).isOk) &&
          ((x :: xs).drop c).all (fun y => (work y).isOk)) := by
      conv_lhs => rw [← List.take_append_drop c (x :: xs)]
      rw [List.all_append]
    rw [hsplit]
    have hall := promiseAll_map_isOk work ((x :: xs).take c)
    cases hp : promiseAll (((x :: xs).take c).map work) with
    | error e =>
      rw [hp] at hall
      simp only [isOk_error] at hall
      simp [hp, Bind.bind, Except.bind, ← hall]
    | ok v =>
      rw [hp] at hall
      simp only [isOk_ok] at hall
      cases hr : batchLoop work key c ((x :: xs).drop c) with
      | error e =>
        rw [hr] at ih
        simp only [isOk_error] at ih
        simp [hp, hr, Bind.bind, Except.bind, ← hall, ← ih]
      | ok rs =>
        rw [hr] at ih
        simp only [isOk_ok] at ih
        simp [hp, hr, Bind.bind, Except.bind, pure, Except.pure, ← hall, ← ih]

/-- C1 (amended): the batch loop does not isolate per-item failure: if any
item's work call fails, the whole batch call rejects — no result map is
returned, so no sibling's result is observable through it — although every
sibling in the failing item's chunk is still started
(`Promise.all` creates the whole chunk's calls first), and no call of any
chunk after the first failing chunk is ever started: when the first
failure lies in chunk `k`, the started items are exactly the first
`(k+1)·c` items. -/
theorem batchLoop_failure_rejects {α β ε : Type} (work : α → Except ε β)
    (key : α → String) (c : Nat) (items : List α) (hc : 0 < c) :
    ((∃ x ∈ items, (work x).isOk = false) →
      (batchLoop work key c items).isOk = false) ∧
    (∀ k, (∃ x ∈ (chunksOf c items).getD k [], (work x).isOk = false) →
      (∀ j, j < k → ∀ x ∈ (chunksOf c items).getD j [], (work x).isOk = true) →
      invokedItems work c items = items.take ((k + 1) * c)) := by
  constructor
  · intro ⟨x, hx, hfail⟩
    rw [batchLoop_isOk work key c hc]
    exact List.all_eq_false.mpr ⟨x, hx, by simp [hfail]⟩
  · intro k
    induction k generalizing items with
    | zero =>
      intro hfail hpre
      match items with
      | [] => simp [chunksOf] at hfail
      | x :: xs =>
        rw [chunksOf, if_neg (Nat.pos_iff_ne_zero.mp hc)] at hfail
        simp only [List.getD_cons_zero] at hfail
        obtain ⟨y, hy, hyfail⟩ := hfail
        have hnotok : (promiseAll (((x :: xs).take c).map work)).isOk = false := by
          rw [promiseAll_map_isOk]
          exact List.all_eq_false.mpr ⟨y, hy, by simp [hyfail]⟩
        rw [invokedItems, if_neg (Nat.pos_iff_ne_zero.mp hc),
          if_neg (by rw [hnotok]; simp)]
        simp [Nat.one_mul]
    | succ k ih =>
      intro hfail hpre
      match items with
      | [] => simp [chunksOf] at hfail
      | x :: xs =>
        have hc0 := Nat.pos_iff_ne_zero.mp hc
        have hchunk0 : ∀ y ∈ (x :: xs).take c, (work y).isOk = true := by
          have := hpre 0 (Nat.succ_pos k)
          rw [chunksOf, if_neg hc0] at this
          simpa using this
        have hok : (promiseAll (((x :: xs).take c).map work)).isOk = true := by
          rw [promiseAll_map_isOk]
          exact List.all_eq_true.mpr fun y hy => hchunk0 y hy
        rw [invokedItems, if_neg hc0, if_pos (by rw [hok])]
        have hfail2 : ∃ y ∈ (chunksOf c ((x :: xs).drop c)).getD k [],
            (work y).isOk = false := by
          rw [chunksOf, if_neg hc0] at hfail
          simpa using hfail
        have hpre2 : ∀ j, j < k →
            ∀ y ∈ (chunksOf c ((x :: xs).drop c)).getD j [], (work y).isOk = true := by
          intro j hj y hy
          have := hpre (j + 1) (Nat.succ_lt_succ hj)
          rw [chunksOf, if_neg hc0] at this
          simp only [List.getD_cons_succ] at this
          exact this y hy
        rw [ih ((x :: xs).drop c) hfail2 hpre2]
        have harith : (k + 1 + 1) * c = c + (k + 1) * c := by ring
        rw [harith, List.take_add]

/-- Unit of work for the C1 witness: item 2 fails, everything else
succeeds. -/
def wWork : Nat → Except String Nat :=
  fun n => if n == 2 then .error "boom" else .ok n

/-- Key function for the C1 witness. -/
def wKey : Nat → String := fun n => toString n

/-- C1 witness: the amended theorem applied at a concrete batch of six
items with concurrency 2 whose first failure sits in chunk 1: the batch
call rejects, and exactly the first two chunks (four items) are started. -/
theorem batchLoop_failure_rejects_witness :
    (batchLoop wWork wKey 2 [0, 1, 2, 3, 4, 5]).isOk = false ∧
    invokedItems wWork 2 [0, 1, 2, 3, 4, 5] = [0, 1, 2, 3] := by
  have h := batchLoop_failure_rejects wWork wKey 2 [0, 1, 2, 3, 4, 5] (by norm_num)
  refine ⟨h.1 ⟨2, by decide, by decide⟩, ?_⟩
  have hfail : ∃ x ∈ (chunksOf 2 [0, 1, 2, 3, 4, 5]).getD 1 [], (wWork x).isOk = false := by
    have hch : chunksOf 2 [0, 1, 2, 3, 4, 5] = [[0, 1], [2, 3], [4, 5]] := by
      simp [chunksOf]
    rw [hch]
    exact ⟨2, by decide, by decide⟩
  have hpre : ∀ j, j < 1 → ∀ x ∈ (chunksOf 2 [0, 1, 2, 3, 4, 5]).getD j [],
      (wWork x).isOk = true := by
    intro j hj x hx
    interval_cases j
    have hch : chunksOf 2 [0, 1, 2, 3, 4, 5] = [[0, 1], [2, 3], [4, 5]] := by
      simp [chunksOf]
    rw [hch] at hx
    simp only [List.getD_cons_zero] at hx
    fin_cases hx <;> decide
  have h2 := h.2 1 hfail hpre
  rw [h2]
  decide

/-- The canvas the C1 counterexample oracle returns. -/
def cCanvas : BusinessModelCanvas := wCanvas

/-- The C1 counterexample oracle: the business-types call rejects exactly
when the prompt mentions the industry named `FailMe`; every other call
succeeds. -/
def cFailAI : IndustryAI :=
  { businessTypes := fun p =>
      if hasSub "FailMe".data p.data then .error "AI refused" else .ok { types := [] }
    businessModelCanvas := fun _ => .ok cCanvas
    competitiveLandscape := fun _ =>
      .ok { marketLeaders := ["Acme"], emergingPlayers := [], disruptors := [],
            consolidationTrends := "stable" }
    industryTrends := fun _ => .ok { trends := [] }
    aiReadiness := fun _ =>
      .ok { dataAvailability := "abundant", processStandardization := "managed",
            aiAdoption := "experimenting", topAIUseCases := [] }
    marketSize := fun _ => .ok { tam := "$1B", sam := "$100M", growth := "2%" } }

/-- The failing industry of the C1 counterexample. -/
def cInd1 : Industry :=
  { ns := "industries.org.ai"
    tyName := "Industry"
    id := "FailMeInd"
    name := "FailMe"
    description := "a sector the oracle rejects"
    code := "99"
    shortName := "fm"
    sourceType := "NAICS"
    level := 1 }

/-- The non-failing sibling industry of the C1 counterexample. -/
def cInd2 : Industry :=
  { ns := "industries.org.ai"
    tyName := "Industry"
    id := "Retail"
    name := "Retail"
    description := "stores"
    code := "44"
    shortName := "rt"
    sourceType := "NAICS"
    level := 1 }

set_option maxRecDepth 40000 in
/-- C1 counterexample: with a failing first industry and a succeeding
sibling in the same chunk, `enrichIndustriesBatch` rejects with the
item's error instead of returning a result map — the sibling's result,
although its own enrichment succeeds, appears in no returned map, and the
error reaches the caller. -/
theorem enrichIndustriesBatch_rejects :
    enrichIndustriesBatch cFailAI [cInd1, cInd2] {} = .error "AI refused" ∧
    (enrichIndustry cFailAI cInd2 {}).isOk = true := by
  have h1 : enrichIndustry cFailAI cInd1 {} = .error "AI refused" := rfl
  constructor
  · rw [enrichIndustriesBatch, batchLoop]
    simp [h1, promiseAll, Bind.bind, Except.bind]
  · rfl

/-! ### Counting lemmas over batch schedules (for the C4 theorem) -/

/-- Every event a chunk block emits carries that chunk's tag. -/
theorem chunkTag_of_mem_chunkEvents {α : Type} {k : Nat} {ch fins : List α}
    {e : BatchEvent α} (he : e ∈ chunkEvents k ch fins) : chunkTag e = k := by
  rcases List.mem_append.mp he with h | h <;>
    obtain ⟨x, _, rfl⟩ := List.mem_map.mp h <;> rfl

/-- Events of later chunks carry tags at least the starting index. -/
theorem chunkTag_of_mem_batchEventsFrom {α : Type} {k0 : Nat}
    {sched : List (List α × List α)} {e : BatchEvent α}
    (he : e ∈ batchEventsFrom k0 sched) : k0 ≤ chunkTag e := by
  induction sched generalizing k0 with
  | nil => simp [batchEventsFrom] at he
  | cons p rest ih =>
    rcases List.mem_append.mp he with h | h
    · exact le_of_eq (chunkTag_of_mem_chunkEvents h).symm
    · exact Nat.le_of_succ_le (ih h)

/-- Start-count of one chunk block. -/
theorem countP_isStart_chunkEvents {α : Type} (k : Nat) (ch fins : List α) :
    (chunkEvents k ch fins).countP isStart = ch.length := by
  simp [chunkEvents, List.countP_append, List.countP_map, Function.comp_def,
    isStart, List.countP_true, List.countP_eq_zero]

/-- Finish-count of one chunk block. -/
theorem countP_isFinish_chunkEvents {α : Type} (k : Nat) (ch fins : List α) :
    (chunkEvents k ch fins).countP isFinish = fins.length := by
  simp [chunkEvents, List.countP_append, List.countP_map, Function.comp_def,
    isFinish, List.countP_true, List.countP_eq_zero]

/-- Tagged start-count of one chunk block. -/
theorem countP_isStartOf_chunkEvents {α : Type} (j k : Nat) (ch fins : List α) :
    (chunkEvents k ch fins).countP (isStartOf j) =
      if j = k then ch.length else 0 := by
  by_cases h : j = k
  · subst h
    simp [chunkEvents, List.countP_append, List.countP_map, Function.comp_def,
      isStartOf, isStart, chunkTag, List.countP_true, List.countP_eq_zero]
  · simp only [if_neg h]
    rw [List.countP_eq_zero]
    intro e he
    have := chunkTag_of_mem_chunkEvents he
    simp [isStartOf, this]
    intro
    omega

/-- Tagged finish-count of one chunk block. -/
theorem countP_isFinishOf_chunkEvents {α : Type} (j k : Nat) (ch fins : List α) :
    (chunkEvents k ch fins).countP (isFinishOf j) =
      if j = k then fins.length else 0 := by
  by_cases h : j = k
  · subst h
    simp [chunkEvents, List.countP_append, List.countP_map, Function.comp_def,
      isFinishOf, isFinish, chunkTag, List.countP_true, List.countP_eq_zero]
  · simp only [if_neg h]
    rw [List.countP_eq_zero]
    intro e he
    have := chunkTag_of_mem_chunkEvents he
    simp [isFinishOf, this]
    intro
    omega

/-- A prefix has no more matches than the whole list. -/
theorem countP_take_le {α : Type} (p : α → Bool) (l : List α) (n : Nat) :
    (l.take n).countP p ≤ l.countP p :=
  List.Sublist.countP_le p (List.take_sublist n l)

/-- Counting in a prefix of an append splits at the boundary. -/
theorem countP_take_append {α : Type} (p : α → Bool) (a b : List α) (n : Nat) :
    ((a ++ b).take n).countP p =
      (a.take n).countP p + (b.take (n - a.length)).countP p := by
  rw [List.take_append_eq_append_take, List.countP_append]

/-- Events with a tag below the block range never occur in it, so they
never occur in any prefix of it. -/
theorem countP_isFinishOf_batchEventsFrom_lt {α : Type} (j k0 : Nat) (hjk : j < k0)
    (sched : List (List α × List α)) (n : Nat) :
    ((batchEventsFrom k0 sched).take n).countP (isFinishOf j) = 0 := by
  rw [List.countP_eq_zero]
  intro e he
  have hmem := List.Sublist.mem he (List.take_sublist n (batchEventsFrom k0 sched))
  have := chunkTag_of_mem_batchEventsFrom hmem
  have hne : chunkTag e ≠ j := by omega
  simp [isFinishOf, hne]

/-- Tagged starts with a tag below the block range never occur in a
prefix of it. -/
theorem countP_isStartOf_batchEventsFrom_lt {α : Type} (j k0 : Nat) (hjk : j < k0)
    (sched : List (List α × List α)) (n : Nat) :
    ((batchEventsFrom k0 sched).take n).countP (isStartOf j) = 0 := by
  rw [List.countP_eq_zero]
  intro e he
  have hmem := List.Sublist.mem he (List.take_sublist n (batchEventsFrom k0 sched))
  have := chunkTag_of_mem_batchEventsFrom hmem
  have hne : chunkTag e ≠ j := by omega
  simp [isStartOf, hne]

/-- In-flight bound: in every prefix of a batch schedule whose chunks
hold at most `c` items, the number of started calls exceeds the number of
finished calls by at most `c`. -/
theorem batchEventsFrom_inflight {α : Type} (c : Nat)
    (sched : List (List α × List α))
    (hlen : ∀ p ∈ sched, p.1.length ≤ c ∧ p.2.length = p.1.length) :
    ∀ k0 n, ((batchEventsFrom k0 sched).take n).countP isStart ≤
      ((batchEventsFrom k0 sched).take n).countP isFinish + c := by
  induction sched with
  | nil => intro k0 n; simp [batchEventsFrom]
  | cons p rest ih =>
    intro k0 n
    have hp := hlen p (List.mem_cons_self p rest)
    have hrest : ∀ q ∈ rest, q.1.length ≤ c ∧ q.2.length = q.1.length :=
      fun q hq => hlen q (List.mem_cons_of_mem p hq)
    rw [batchEventsFrom, countP_take_append, countP_take_append]
    have hhead : ((chunkEvents k0 p.1 p.2).take n).countP isStart ≤ p.1.length := by
      calc ((chunkEvents k0 p.1 p.2).take n).countP isStart
          ≤ (chunkEvents k0 p.1 p.2).countP isStart := countP_take_le _ _ _
        _ = p.1.length := countP_isStart_chunkEvents k0 p.1 p.2
    by_cases hn : n ≤ (chunkEvents k0 p.1 p.2).length
    · have hz : n - (chunkEvents k0 p.1 p.2).length = 0 := by omega
      rw [hz]
      simp only [List.take_zero, List.countP_nil]
      omega
    · have hfull : (chunkEvents k0 p.1 p.2).take n = chunkEvents k0 p.1 p.2 :=
        List.take_of_length_le (by omega)
      rw [hfull, countP_isStart_chunkEvents, countP_isFinish_chunkEvents]
      have := ih hrest (k0 + 1) (n - (chunkEvents k0 p.1 p.2).length)
      omega

/-- A start of chunk `k` can only appear in a prefix that already holds
every finish of every chunk `j < k` (within the block range). -/
theorem batchEventsFrom_order1 {α : Type} (sched : List (List α × List α)) :
    ∀ k0 n k j, k0 ≤ j → j < k →
      0 < ((batchEventsFrom k0 sched).take n).countP (isStartOf k) →
      ((batchEventsFrom k0 sched).take n).countP (isFinishOf j) =
        ((sched.getD (j - k0) ([], [])).2).length := by
  induction sched with
  | nil => intro k0 n k j _ _ hpos; simp [batchEventsFrom] at hpos
  | cons p rest ih =>
    intro k0 n k j hk0j hjk hpos
    rw [batchEventsFrom, countP_take_append] at hpos ⊢
    have hkne : k ≠ k0 := by omega
    have hhead0 : ((chunkEvents k0 p.1 p.2).take n).countP (isStartOf k) = 0 := by
      have hle := countP_take_le (isStartOf k) (chunkEvents k0 p.1 p.2) n
      rw [countP_isStartOf_chunkEvents, if_neg hkne] at hle
      omega
    rw [hhead0] at hpos
    simp only [Nat.zero_add] at hpos
    have hngt : (chunkEvents k0 p.1 p.2).length < n := by
      by_contra hle
      have hz : n - (chunkEvents k0 p.1 p.2).length = 0 := by omega
      rw [hz] at hpos
      simp at hpos
    have hfull : (chunkEvents k0 p.1 p.2).take n = chunkEvents k0 p.1 p.2 :=
      List.take_of_length_le (by omega)
    by_cases hj : j = k0
    · subst hj
      have hrest0 : ((batchEventsFrom (j + 1) rest).take
          (n - (chunkEvents j p.1 p.2).length)).countP (isFinishOf j) = 0 :=
        countP_isFinishOf_batchEventsFrom_lt j (j + 1) (Nat.lt_succ_self j) rest _
      rw [hfull, countP_isFinishOf_chunkEvents, if_pos rfl, hrest0, Nat.sub_self]
      simp
    · have hj1 : k0 + 1 ≤ j := by omega
      have hhead0f : (chunkEvents k0 p.1 p.2).countP (isFinishOf j) = 0 := by
        rw [countP_isFinishOf_chunkEvents, if_neg (by omega)]
      rw [hfull, hhead0f]
      have := ih (k0 + 1) (n - (chunkEvents k0 p.1 p.2).length) k j hj1 hjk hpos
      rw [this]
      have hidx : j - k0 = (j - (k0 + 1)) + 1 := by omega
      rw [hidx]
      simp

/-- A finish of chunk `k` can only appear in a prefix that already holds
every start of chunk `k`. -/
theorem batchEventsFrom_order2 {α : Type} (sched : List (List α × List α)) :
    ∀ k0 n k,
      0 < ((batchEventsFrom k0 sched).take n).countP (isFinishOf k) →
      ((batchEventsFrom k0 sched).take n).countP (isStartOf k) =
        ((sched.getD (k - k0) ([], [])).1).length := by
  induction sched with
  | nil => intro k0 n k hpos; simp [batchEventsFrom] at hpos
  | cons p rest ih =>
    intro k0 n k hpos
    rw [batchEventsFrom, countP_take_append] at hpos ⊢
    by_cases hk : k = k0
    · subst hk
      have hrestf : ((batchEventsFrom (k + 1) rest).take
          (n - (chunkEvents k p.1 p.2).length)).countP (isFinishOf k) = 0 :=
        countP_isFinishOf_batchEventsFrom_lt k (k + 1) (Nat.lt_succ_self k) rest _
      have hrests : ((batchEventsFrom (k + 1) rest).take
          (n - (chunkEvents k p.1 p.2).length)).countP (isStartOf k) = 0 :=
        countP_isStartOf_batchEventsFrom_lt k (k + 1) (Nat.lt_succ_self k) rest _
      rw [hrestf, Nat.add_zero] at hpos
      rw [hrests, Nat.add_zero, Nat.sub_self]
      simp only [List.getD_cons_zero]
      -- inside the head block: a finish is visible only past all starts
      unfold chunkEvents at hpos ⊢
      rw [countP_take_append] at hpos ⊢
      have hstarts0 : ((p.1.map (BatchEvent.start k)).take n).countP (isFinishOf k) = 0 := by
        rw [List.countP_eq_zero]
        intro e he
        have hmem := List.Sublist.mem he (List.take_sublist n _)
        obtain ⟨x, _, rfl⟩ := List.mem_map.mp hmem
        simp [isFinishOf, isFinish]
      rw [hstarts0, Nat.zero_add] at hpos
      have hlen : p.1.length ≤ n := by
        by_contra hlt
        have hz : n - (p.1.map (BatchEvent.start k)).length = 0 := by
          simp only [List.length_map]; omega
        rw [hz] at hpos
        simp at hpos
      have hfA : (p.1.map (BatchEvent.start k)).take n = p.1.map (BatchEvent.start k) :=
        List.take_of_length_le (by simp [hlen])
      rw [hfA]
      have hB0 : (((p.2.map (BatchEvent.finish k))).take
          (n - (p.1.map (BatchEvent.start k)).length)).countP (isStartOf k) = 0 := by
        rw [List.countP_eq_zero]
        intro e he
        have hmem := List.Sublist.mem he (List.take_sublist _ _)
        obtain ⟨x, _, rfl⟩ := List.mem_map.mp hmem
        simp [isStartOf, isStart]
      rw [hB0, Nat.add_zero]
      rw [List.countP_map]
      have : (isStartOf k ∘ BatchEvent.start k) = fun _ : α => true := by
        funext x
        simp [Function.comp, isStartOf, isStart, chunkTag]
      rw [this, List.countP_true]
    · have hhead0f : ((chunkEvents k0 p.1 p.2).take n).countP (isFinishOf k) = 0 := by
        have hle := countP_take_le (isFinishOf k) (chunkEvents k0 p.1 p.2) n
        rw [countP_isFinishOf_chunkEvents, if_neg hk] at hle
        omega
      rw [hhead0f, Nat.zero_add] at hpos
      have hkgt : k0 + 1 ≤ k := by
        rcases List.countP_pos_iff.mp hpos with ⟨e, he, hpe⟩
        have hmem := List.Sublist.mem he (List.take_sublist _ _)
        have htag := chunkTag_of_mem_batchEventsFrom hmem
        have : chunkTag e = k := by
          by_contra hne
          simp [isFinishOf, hne] at hpe
        omega
      have hngt : (chunkEvents k0 p.1 p.2).length < n := by
        by_contra hle
        have hz : n - (chunkEvents k0 p.1 p.2).length = 0 := by omega
        rw [hz] at hpos
        simp at hpos
      have hfull : (chunkEvents k0 p.1 p.2).take n = chunkEvents k0 p.1 p.2 :=
        List.take_of_length_le (by omega)
      have hhead0s : (chunkEvents k0 p.1 p.2).countP (isStartOf k) = 0 := by
        rw [countP_isStartOf_chunkEvents, if_neg hk]
      rw [hfull, hhead0s, Nat.zero_add]
      have := ih (k0 + 1) (n - (chunkEvents k0 p.1 p.2).length) k hpos
      rw [this]
      have hidx : k - k0 = (k - (k0 + 1)) + 1 := by omega
      rw [hidx]
      simp

/-- Chunks cover the items in order and respect the size bound. -/
theorem chunksOf_spec {α : Type} (c : Nat) (hc : 0 < c) (l : List α) :
    (chunksOf c l).flatten = l ∧ ∀ ch ∈ chunksOf c l, ch.length ≤ c := by
  induction l using chunksOf.induct c with
  | case1 => simp [chunksOf]
  | case2 x xs hzero => omega
  | case3 x xs hzero ih =>
    rw [chunksOf, if_neg hzero]
    constructor
    · simp only [List.flatten_cons, ih.1, List.take_append_drop]
    · intro ch hch
      rcases List.mem_cons.mp hch with rfl | h
      · simp [List.length_take]
      · exact ih.2 ch h

/-- C4: batch execution processes the items in consecutive chunks of at
most `c` items covering the input in order; in every observable schedule
of a run (starts of a chunk issued together, finishes in any order, the
`await` separating chunks) every prefix has at most `c` calls in flight,
no call of a later chunk starts before every finish of every earlier
chunk, and no call of a chunk finishes before every call of that chunk
has started. -/
theorem batch_chunk_discipline {α : Type} (items : List α) (c : Nat)
    (sched : List (List α × List α)) (hc : 0 < c)
    (hv : ValidSchedule c items sched) :
    ((chunksOf c items).flatten = items) ∧
    (∀ ch ∈ chunksOf c items, ch.length ≤ c) ∧
    (∀ n, ((batchEvents sched).take n).countP isStart ≤
      ((batchEvents sched).take n).countP isFinish + c) ∧
    (∀ n k j, j < k →
      0 < ((batchEvents sched).take n).countP (isStartOf k) →
      ((batchEvents sched).take n).countP (isFinishOf j) =
        ((sched.getD j ([], [])).2).length) ∧
    (∀ n k, 0 < ((batchEvents sched).take n).countP (isFinishOf k) →
      ((batchEvents sched).take n).countP (isStartOf k) =
        ((sched.getD k ([], [])).1).length) := by
  obtain ⟨hfst, hperm⟩ := hv
  have hspec := chunksOf_spec c hc items
  have hlen : ∀ p ∈ sched, p.1.length ≤ c ∧ p.2.length = p.1.length := by
    intro p hp
    constructor
    · have : p.1 ∈ chunksOf c items := by
        rw [← hfst]
        exact List.mem_map.mpr ⟨p, hp, rfl⟩
      exact hspec.2 p.1 this
    · exact (hperm p hp).length_eq
  refine ⟨hspec.1, hspec.2, ?_, ?_, ?_⟩
  · intro n
    exact batchEventsFrom_inflight c sched hlen 0 n
  · intro n k j hjk hpos
    have := batchEventsFrom_order1 sched 0 n k j (Nat.zero_le j) hjk hpos
    simpa using this
  · intro n k hpos
    have := batchEventsFrom_order2 sched 0 n k hpos
    simpa using this

/-- A concrete observable schedule for the C4 witness: three items at
concurrency 2; the first chunk's finishes arrive in reversed order. -/
def wSched : List (List Nat × List Nat) :=
  [([1, 2], [2, 1]), ([3], [3])]

/-- C4 witness: the chunk-discipline theorem applied to a concrete batch
of three items at concurrency 2. -/
theorem batch_chunk_discipline_witness :
    ValidSchedule 2 [1, 2, 3] wSched ∧
    (chunksOf 2 [1, 2, 3]).flatten = [1, 2, 3] ∧
    ((batchEvents wSched).take 3).countP isStart ≤
      ((batchEvents wSched).take 3).countP isFinish + 2 := by
  have hch : chunksOf 2 [1, 2, 3] = [[1, 2], [3]] := by
    simp [chunksOf]
  have hv : ValidSchedule 2 [1, 2, 3] wSched := by
    refine ⟨?_, ?_⟩
    · rw [hch]
      decide
    · decide
  have h := batch_chunk_discipline [1, 2, 3] 2 wSched (by norm_num) hv
  exact ⟨hv, h.1, h.2.2.1 3⟩

/-! ### State-machine lemmas for the orchestrator (C7) -/

/-- A decision never changes a step's id. -/
@[simp] theorem decideStep_id (prev : List PipelineStep) (oracle : String → Bool)
    (s : PipelineStep) : (decideStep prev oracle s).id = s.id := by
  unfold decideStep
  split_ifs <;> rfl

/-- A decision never changes a step's dependency list. -/
@[simp] theorem decideStep_dependsOn (prev : List PipelineStep) (oracle : String → Bool)
    (s : PipelineStep) : (decideStep prev oracle s).dependsOn = s.dependsOn := by
  unfold decideStep
  split_ifs <;> rfl

/-- A non-pending step is never touched by a decision. -/
theorem decideStep_stable {prev : List PipelineStep} {oracle : String → Bool}
    {s : PipelineStep} (h : s.status ≠ .pending) : decideStep prev oracle s = s := by
  unfold decideStep
  rw [if_pos h]

/-- One scan preserves the number of steps. -/
@[simp] theorem roundScan_length (oracle : String → Bool) (st : List PipelineStep) :
    (roundScan oracle st).length = st.length :=
  List.length_map st (decideStep st oracle)

/-- The step at a position after a scan is the decision of the step that
was there before. -/
theorem roundScan_getElem (oracle : String → Bool) (st : List PipelineStep)
    (i : Nat) (hi : i < st.length) :
    (roundScan oracle st).get ⟨i, by simpa using hi⟩ = decideStep st oracle (st.get ⟨i, hi⟩) :=
  List.getElem_map (decideStep st oracle)

/-- Status lookup after a scan: the found step is decided in place. -/
theorem depStatus_roundScan (oracle : String → Bool) (st : List PipelineStep)
    (d : String) :
    depStatus (roundScan oracle st) d =
      (st.find? fun s => s.id == d).map fun s => (decideStep st oracle s).status := by
  unfold depStatus roundScan
  rw [List.find?_map]
  simp only [Function.comp_def, decideStep_id, Option.map_map]

/-- A step already decided keeps its status through another scan. -/
theorem depStatus_roundScan_stable {oracle : String → Bool} {st : List PipelineStep}
    {d : String} {t : StepStatus} (ht : t ≠ .pending)
    (h : depStatus st d = some t) : depStatus (roundScan oracle st) d = some t := by
  rw [depStatus_roundScan]
  unfold depStatus at h
  cases hf : st.find? fun s => s.id == d with
  | none => rw [hf] at h; simp at h
  | some s0 =>
    rw [hf] at h
    simp only [Option.map_some'] at h ⊢
    have hs0 : s0.status = t := Option.some.inj h
    rw [decideStep_stable (by rw [hs0]; exact ht), hs0]

/-- `readyDep` spelt out. -/
theorem readyDep_iff {prev : List PipelineStep} {s : PipelineStep} :
    readyDep prev s = true ↔
      ∀ d ∈ s.dependsOn, depStatus prev d = some .completed := by
  unfold readyDep
  rw [List.all_eq_true]
  constructor
  · intro h d hd
    have := h d hd
    simpa using this
  · intro h d hd
    simp [h d hd]

/-- `badDep` spelt out. -/
theorem badDep_iff {prev : List PipelineStep} {s : PipelineStep} :
    badDep prev s = true ↔
      ∃ d ∈ s.dependsOn,
        depStatus prev d = some .failed ∨ depStatus prev d = some .skipped := by
  unfold badDep
  rw [List.any_eq_true]
  constructor
  · intro ⟨d, hd, h⟩
    refine ⟨d, hd, ?_⟩
    rcases Bool.or_eq_true_iff.mp h with h | h
    · exact Or.inl (by simpa using h)
    · exact Or.inr (by simpa using h)
  · intro ⟨d, hd, h⟩
    refine ⟨d, hd, ?_⟩
    rcases h with h | h <;> simp [h]

/-- The four possible outcomes of deciding a pending step. -/
theorem decideStep_pending_cases (prev : List PipelineStep) (oracle : String → Bool)
    (s : PipelineStep) (hp : s.status = .pending) :
    (badDep prev s = true ∧ decideStep prev oracle s = { s with status := .skipped }) ∨
    (badDep prev s = false ∧ readyDep prev s = true ∧ oracle s.id = true ∧
      decideStep prev oracle s = { s with status := .completed }) ∨
    (badDep prev s = false ∧ readyDep prev s = true ∧ oracle s.id = false ∧
      decideStep prev oracle s =
        { s with status := .failed, error := some "step failed" }) ∨
    (badDep prev s = false ∧ readyDep prev s = false ∧
      decideStep prev oracle s = s) := by
  unfold decideStep
  rw [if_neg (by simp [hp])]
  by_cases hb : badDep prev s = true
  · exact Or.inl ⟨hb, by rw [if_pos hb]⟩
  · rw [if_neg hb]
    by_cases hr : readyDep prev s = true
    · rw [if_pos hr]
      by_cases ho : oracle s.id = true
      · exact Or.inr (Or.inl ⟨Bool.not_eq_true _ ▸ hb, hr, ho, by rw [if_pos ho]⟩)
      · exact Or.inr (Or.inr (Or.inl
          ⟨Bool.not_eq_true _ ▸ hb, hr, Bool.not_eq_true _ ▸ ho, by rw [if_neg ho]⟩))
    · exact Or.inr (Or.inr (Or.inr
        ⟨Bool.not_eq_true _ ▸ hb, Bool.not_eq_true _ ▸ hr, by rw [if_neg hr]⟩))

/-- A pending step whose dependencies all carry terminal statuses is
decided (to a terminal status) by the next scan. -/
theorem decideStep_decides (prev : List PipelineStep) (oracle : String → Bool)
    (s : PipelineStep) (hp : s.status = .pending)
    (hdeps : ∀ d ∈ s.dependsOn,
      ∃ t, depStatus prev d = some t ∧ isTerminal t = true) :
    isTerminal (decideStep prev oracle s).status = true := by
  rcases decideStep_pending_cases prev oracle s hp with
    ⟨_, heq⟩ | ⟨_, _, _, heq⟩ | ⟨_, _, _, heq⟩ | ⟨hb, hr, heq⟩
  · rw [heq]; rfl
  · rw [heq]; rfl
  · rw [heq]; rfl
  · exfalso
    have hready : readyDep prev s = true := by
      rw [readyDep_iff]
      intro d hd
      obtain ⟨t, hds, hterm⟩ := hdeps d hd
      cases t with
      | completed => exact hds
      | failed => exact absurd (badDep_iff.mpr ⟨d, hd, Or.inl hds⟩) (by simp [hb])
      | skipped => exact absurd (badDep_iff.mpr ⟨d, hd, Or.inr hds⟩) (by simp [hb])
      | pending => simp [isTerminal] at hterm
      | running => simp [isTerminal] at hterm
    rw [hready] at hr
    simp at hr

/-- State invariant: a completed step had all dependencies completed. -/
def InvCompleted (st : List PipelineStep) : Prop :=
  ∀ s ∈ st, s.status = .completed →
    ∀ d ∈ s.dependsOn, depStatus st d = some .completed

/-- State invariant: a failed step ran (all dependencies completed) and
its operation failed. -/
def InvFailed (oracle : String → Bool) (st : List PipelineStep) : Prop :=
  ∀ s ∈ st, s.status = .failed →
    oracle s.id = false ∧ ∀ d ∈ s.dependsOn, depStatus st d = some .completed

/-- State invariant: a skipped step has a failed or skipped dependency. -/
def InvSkipped (st : List PipelineStep) : Prop :=
  ∀ s ∈ st, s.status = .skipped →
    ∃ d ∈ s.dependsOn,
      depStatus st d = some .failed ∨ depStatus st d = some .skipped

/-- State invariant: `running` is a transient status the collapsed
decision never exhibits. -/
def InvNotRunning (st : List PipelineStep) : Prop :=
  ∀ s ∈ st, s.status ≠ .running

/-- All four invariants at once. -/
def Invs (oracle : String → Bool) (st : List PipelineStep) : Prop :=
  InvCompleted st ∧ InvFailed oracle st ∧ InvSkipped st ∧ InvNotRunning st

/-- One scan preserves the bundled invariants. -/
theorem invs_roundScan (oracle : String → Bool) (st : List PipelineStep)
    (h : Invs oracle st) : Invs oracle (roundScan oracle st) := by
  obtain ⟨hcomp, hfail, hskip, hrun⟩ := h
  refine ⟨?_, ?_, ?_, ?_⟩
  · intro s2 hs2 hstatus d hd
    obtain ⟨s, hs, rfl⟩ := List.mem_map.mp hs2
    rw [decideStep_dependsOn] at hd
    by_cases hp : s.status = .pending
    · rcases decideStep_pending_cases st oracle s hp with
        ⟨_, heq⟩ | ⟨_, hr, _, heq⟩ | ⟨_, _, _, heq⟩ | ⟨_, _, heq⟩
      · rw [heq] at hstatus; simp at hstatus
      · exact depStatus_roundScan_stable (by simp) (readyDep_iff.mp hr d hd)
      · rw [heq] at hstatus; simp at hstatus
      · rw [heq] at hstatus; rw [hstatus] at hp; simp at hp
    · rw [decideStep_stable hp] at hstatus
      exact depStatus_roundScan_stable (by simp) (hcomp s hs hstatus d hd)
  · intro s2 hs2 hstatus
    obtain ⟨s, hs, rfl⟩ := List.mem_map.mp hs2
    rw [decideStep_dependsOn, decideStep_id]
    by_cases hp : s.status = .pending
    · rcases decideStep_pending_cases st oracle s hp with
        ⟨_, heq⟩ | ⟨_, _, _, heq⟩ | ⟨_, hr, ho, heq⟩ | ⟨_, _, heq⟩
      · rw [heq] at hstatus; simp at hstatus
      · rw [heq] at hstatus; simp at hstatus
      · exact ⟨ho, fun d hd =>
          depStatus_roundScan_stable (by simp) (readyDep_iff.mp hr d hd)⟩
      · rw [heq] at hstatus; rw [hstatus] at hp; simp at hp
    · rw [decideStep_stable hp] at hstatus
      obtain ⟨ho, hdeps⟩ := hfail s hs hstatus
      exact ⟨ho, fun d hd =>
        depStatus_roundScan_stable (by simp) (hdeps d hd)⟩
  · intro s2 hs2 hstatus
    obtain ⟨s, hs, rfl⟩ := List.mem_map.mp hs2
    rw [decideStep_dependsOn]
    by_cases hp : s.status = .pending
    · rcases decideStep_pending_cases st oracle s hp with
        ⟨hb, heq⟩ | ⟨_, _, _, heq⟩ | ⟨_, _, _, heq⟩ | ⟨_, _, heq⟩
      · obtain ⟨d, hd, hbad⟩ := badDep_iff.mp hb
        refine ⟨d, hd, ?_⟩
        rcases hbad with hbad | hbad
        · exact Or.inl (depStatus_roundScan_stable (by simp) hbad)
        · exact Or.inr (depStatus_roundScan_stable (by simp) hbad)
      · rw [heq] at hstatus; simp at hstatus
      · rw [heq] at hstatus; simp at hstatus
      · rw [heq] at hstatus; rw [hstatus] at hp; simp at hp
    · rw [decideStep_stable hp] at hstatus
      obtain ⟨d, hd, hbad⟩ := hskip s hs hstatus
      refine ⟨d, hd, ?_⟩
      rcases hbad with hbad | hbad
      · exact Or.inl (depStatus_roundScan_stable (by simp) hbad)
      · exact Or.inr (depStatus_roundScan_stable (by simp) hbad)
  · intro s2 hs2
    obtain ⟨s, hs, rfl⟩ := List.mem_map.mp hs2
    by_cases hp : s.status = .pending
    · rcases decideStep_pending_cases st oracle s hp with
        ⟨_, heq⟩ | ⟨_, _, _, heq⟩ | ⟨_, _, _, heq⟩ | ⟨_, _, heq⟩ <;>
        rw [heq] <;> simp [hp]
    · rw [decideStep_stable hp]
      exact hrun s hs

/-- Repeated scans preserve the bundled invariants. -/
theorem invs_iterateRounds (oracle : String → Bool) (n : Nat)
    (st : List PipelineStep) (h : Invs oracle st) :
    Invs oracle (iterateRounds oracle n st) := by
  induction n generalizing st with
  | zero => exact h
  | succ n ih => exact ih (roundScan oracle st) (invs_roundScan oracle st h)

/-- The freshly created run satisfies the invariants (all steps pending). -/
theorem invs_init (oracle : String → Bool) (defs : List StepDef) :
    Invs oracle (defs.map toPipelineStep) := by
  refine ⟨?_, ?_, ?_, ?_⟩ <;> intro s hs hstatus <;>
    obtain ⟨d0, _, rfl⟩ := List.mem_map.mp hs <;> simp [toPipelineStep] at hstatus

/-- A junk step used as the default of positional lookups. -/
def dummyStep : PipelineStep :=
  { id := ""
    name := ""
    phase := ""
    fnRef := ""
    dependsOn := []
    status := .pending
    error := none }

/-- Repeated scans preserve the number of steps. -/
theorem iterateRounds_length (oracle : String → Bool) (n : Nat)
    (st : List PipelineStep) : (iterateRounds oracle n st).length = st.length := by
  induction n generalizing st with
  | zero => rfl
  | succ n ih =>
    rw [iterateRounds, ih (roundScan oracle st), roundScan_length]

/-- Peeling the last scan instead of the first. -/
theorem iterateRounds_succ (oracle : String → Bool) (n : Nat)
    (st : List PipelineStep) :
    iterateRounds oracle (n + 1) st = roundScan oracle (iterateRounds oracle n st) := by
  induction n generalizing st with
  | zero => rfl
  | succ n ih =>
    rw [iterateRounds, ih (roundScan oracle st), ← iterateRounds]

/-- Positional lookup after one scan. -/
theorem roundScan_getD (oracle : String → Bool) (st : List PipelineStep)
    (i : Nat) (hi : i < st.length) :
    (roundScan oracle st).getD i dummyStep =
      decideStep st oracle (st.getD i dummyStep) := by
  rw [List.getD_eq_getElem _ _ (by simpa using hi), List.getD_eq_getElem _ _ hi]
  exact List.getElem_map (decideStep st oracle)

/-- Repeated scans never change a step's id. -/
theorem iterateRounds_id (oracle : String → Bool) (n : Nat)
    (st : List PipelineStep) (i : Nat) (hi : i < st.length) :
    ((iterateRounds oracle n st).getD i dummyStep).id = (st.getD i dummyStep).id := by
  induction n generalizing st with
  | zero => rfl
  | succ n ih =>
    rw [iterateRounds_succ, roundScan_getD oracle _ i (by rwa [iterateRounds_length]),
      decideStep_id, ih st hi]

/-- Repeated scans never change a step's dependency list. -/
theorem iterateRounds_dependsOn (oracle : String → Bool) (n : Nat)
    (st : List PipelineStep) (i : Nat) (hi : i < st.length) :
    ((iterateRounds oracle n st).getD i dummyStep).dependsOn =
      (st.getD i dummyStep).dependsOn := by
  induction n generalizing st with
  | zero => rfl
  | succ n ih =>
    rw [iterateRounds_succ, roundScan_getD oracle _ i (by rwa [iterateRounds_length]),
      decideStep_dependsOn, ih st hi]

/-- The id list is invariant under repeated scans. -/
theorem iterateRounds_ids (oracle : String → Bool) (n : Nat)
    (st : List PipelineStep) :
    (iterateRounds oracle n st).map (fun s => s.id) = st.map (fun s => s.id) := by
  induction n generalizing st with
  | zero => rfl
  | succ n ih =>
    rw [iterateRounds, ih (roundScan oracle st)]
    unfold roundScan
    rw [List.map_map]
    exact List.map_congr_left fun s _ => decideStep_id st oracle s

/-- With unique ids, the status lookup of the `j`-th step's id is the
`j`-th step's status. -/
theorem depStatus_nodup (st : List PipelineStep)
    (hnd : (st.map (fun s => s.id)).Nodup) (j : Nat) (hj : j < st.length) :
    depStatus st ((st.getD j dummyStep).id) = some ((st.getD j dummyStep).status) := by
  induction st generalizing j with
  | nil => simp at hj
  | cons x xs ih =>
    cases j with
    | zero =>
      unfold depStatus
      simp [List.find?_cons_of_pos]
    | succ j =>
      have hj2 : j < xs.length := by simpa using hj
      have hmem : xs.getD j dummyStep ∈ xs := by
        rw [List.getD_eq_getElem _ _ hj2]
        exact List.getElem_mem hj2
      have hne : x.id ≠ (xs.getD j dummyStep).id := by
        intro he
        exact (List.nodup_cons.mp hnd).1
          (List.mem_map.mpr ⟨xs.getD j dummyStep, hmem, he.symm⟩)
      have hstep : ((x :: xs).getD (j + 1) dummyStep) = xs.getD j dummyStep := by
        simp
      rw [hstep]
      unfold depStatus
      rw [List.find?_cons_of_neg _ (by simpa [List.getD] using hne)]
      exact ih (List.nodup_cons.mp hnd).2 j hj2

/-- After as many scans as there are steps, every step of a well-formed,
topologically ordered run is terminal. -/
theorem iterateRounds_all_terminal (oracle : String → Bool)
    (st0 : List PipelineStep)
    (hnd : (st0.map (fun s => s.id)).Nodup)
    (hwf : ∀ i, i < st0.length → ∀ d ∈ (st0.getD i dummyStep).dependsOn,
      ∃ j, j < i ∧ j < st0.length ∧ (st0.getD j dummyStep).id = d)
    (hinv : Invs oracle st0) :
    ∀ n i, i < n → i < st0.length →
      isTerminal ((iterateRounds oracle n st0).getD i dummyStep).status = true := by
  intro n
  induction n with
  | zero => intro i hi; omega
  | succ n ih =>
    intro i hi hilen
    rw [iterateRounds_succ]
    have hlen : (iterateRounds oracle n st0).length = st0.length :=
      iterateRounds_length oracle n st0
    rw [roundScan_getD oracle _ i (by rwa [hlen])]
    set S := iterateRounds oracle n st0 with hS
    by_cases hp : (S.getD i dummyStep).status = .pending
    · -- all dependencies point to earlier steps, terminal by induction
      apply decideStep_decides S oracle _ hp
      intro d hd
      rw [iterateRounds_dependsOn oracle n st0 i hilen] at hd
      obtain ⟨j, hji, hjlen, hjid⟩ := hwf i hilen d hd
      have hidj : (S.getD j dummyStep).id = d := by
        rw [iterateRounds_id oracle n st0 j hjlen, hjid]
      have hndS : (S.map (fun s => s.id)).Nodup := by
        rw [iterateRounds_ids]; exact hnd
      refine ⟨(S.getD j dummyStep).status, ?_, ?_⟩
      · rw [← hidj]
        exact depStatus_nodup S hndS j (by rwa [hlen])
      · exact ih j (by omega) (by omega)
    · -- already decided: not pending, and `running` is excluded
      rw [decideStep_stable hp]
      have hmem : S.getD i dummyStep ∈ S := by
        rw [List.getD_eq_getElem _ _ (by rwa [hlen])]
        exact List.getElem_mem _
      have hnr := (invs_iterateRounds oracle n st0 hinv).2.2.2 _ hmem
      cases hst : (S.getD i dummyStep).status with
      | pending => exact absurd hst hp
      | running => exact absurd hst hnr
      | completed => rfl
      | failed => rfl
      | skipped => rfl

/-- C7: in a finished run over a well-formed DAG, a step one of whose
dependencies ended `failed` or `skipped` ends `skipped` — never
`completed` — while a step whose own operation succeeds and all of whose
transitive dependencies succeed ends `completed`: failure propagates
forward without aborting unrelated branches. -/
theorem executeWorkflow_failure_propagation (oracle : String → Bool)
    (defs : List StepDef) (hwfall : WellFormedDefs defs) :
    (∀ ia ib, (hia : ia < defs.length) → (hib : ib < defs.length) →
      (defs.get ⟨ia, hia⟩).id ∈ (defs.get ⟨ib, hib⟩).dependsOn →
      (depStatus (executeWorkflow oracle defs) (defs.get ⟨ia, hia⟩).id =
          some .failed ∨
        depStatus (executeWorkflow oracle defs) (defs.get ⟨ia, hia⟩).id =
          some .skipped) →
      depStatus (executeWorkflow oracle defs) (defs.get ⟨ib, hib⟩).id =
        some .skipped) ∧
    (∀ ic, (hic : ic < defs.length) →
      oracle (defs.get ⟨ic, hic⟩).id = true →
      (∀ d, TransDep defs (defs.get ⟨ic, hic⟩).id d → oracle d = true) →
      depStatus (executeWorkflow oracle defs) (defs.get ⟨ic, hic⟩).id =
        some .completed) := by
  obtain ⟨hnd, hwf⟩ := hwfall
  have hgetD : ∀ i, (hi : i < defs.length) →
      (defs.map toPipelineStep).getD i dummyStep = toPipelineStep (defs.get ⟨i, hi⟩) := by
    intro i hi
    rw [List.getD_eq_getElem _ _ (by simpa using hi)]
    exact List.getElem_map toPipelineStep
  have hlen0 : (defs.map toPipelineStep).length = defs.length := List.length_map defs _
  have hnd0 : ((defs.map toPipelineStep).map (fun s => s.id)).Nodup := by
    rw [List.map_map]
    exact hnd
  have hwf0 : ∀ i, i < (defs.map toPipelineStep).length →
      ∀ d ∈ ((defs.map toPipelineStep).getD i dummyStep).dependsOn,
      ∃ j, j < i ∧ j < (defs.map toPipelineStep).length ∧
        ((defs.map toPipelineStep).getD j dummyStep).id = d := by
    intro i hi d hd
    have hi2 : i < defs.length := by rwa [hlen0] at hi
    rw [hgetD i hi2] at hd
    obtain ⟨j, hj, hji, hjid⟩ := hwf i hi2 d hd
    refine ⟨j, hji, by omega, ?_⟩
    rw [hgetD j hj]
    exact hjid
  have hinit := invs_init oracle defs
  have hterm := iterateRounds_all_terminal oracle (defs.map toPipelineStep)
    hnd0 hwf0 hinit
  have hinvF : Invs oracle (executeWorkflow oracle defs) :=
    invs_iterateRounds oracle defs.length (defs.map toPipelineStep) hinit
  have hlenF : (executeWorkflow oracle defs).length = defs.length := by
    unfold executeWorkflow
    rw [iterateRounds_length, hlen0]
  have hFid : ∀ i, (hi : i < defs.length) →
      ((executeWorkflow oracle defs).getD i dummyStep).id = (defs.get ⟨i, hi⟩).id := by
    intro i hi
    unfold executeWorkflow
    rw [iterateRounds_id oracle _ _ i (by omega), hgetD i hi]
    rfl
  have hndF : ((executeWorkflow oracle defs).map (fun s => s.id)).Nodup := by
    unfold executeWorkflow
    rw [iterateRounds_ids]
    exact hnd0
  have hstat : ∀ i, (hi : i < defs.length) →
      depStatus (executeWorkflow oracle defs) (defs.get ⟨i, hi⟩).id =
        some (((executeWorkflow oracle defs).getD i dummyStep).status) := by
    intro i hi
    rw [← hFid i hi]
    exact depStatus_nodup _ hndF i (by omega)
  have htermF : ∀ i, i < defs.length →
      isTerminal (((executeWorkflow oracle defs).getD i dummyStep).status) = true := by
    intro i hi
    exact hterm defs.length i (by omega) (by omega)
  have hmemF : ∀ i, i < defs.length →
      (executeWorkflow oracle defs).getD i dummyStep ∈ executeWorkflow oracle defs := by
    intro i hi
    rw [List.getD_eq_getElem _ _ (by omega)]
    exact List.getElem_mem _
  have hdepF : ∀ i, (hi : i < defs.length) →
      ((executeWorkflow oracle defs).getD i dummyStep).dependsOn =
        (defs.get ⟨i, hi⟩).dependsOn := by
    intro i hi
    unfold executeWorkflow
    rw [iterateRounds_dependsOn oracle _ _ i (by omega), hgetD i hi]
    rfl
  constructor
  · intro ia ib hia hib hdep hbad
    have hbadS : ((executeWorkflow oracle defs).getD ia dummyStep).status = .failed ∨
        ((executeWorkflow oracle defs).getD ia dummyStep).status = .skipped := by
      rw [hstat ia hia] at hbad
      rcases hbad with h | h
      · exact Or.inl (Option.some.inj h)
      · exact Or.inr (Option.some.inj h)
    rw [hstat ib hib]
    cases hst : ((executeWorkflow oracle defs).getD ib dummyStep).status with
    | pending => have := htermF ib hib; rw [hst] at this; simp [isTerminal] at this
    | running => have := htermF ib hib; rw [hst] at this; simp [isTerminal] at this
    | skipped => rfl
    | completed =>
      exfalso
      have hdeps := hinvF.1 _ (hmemF ib hib) hst (defs.get ⟨ia, hia⟩).id
        (by rw [hdepF ib hib]; exact hdep)
      rw [hstat ia hia] at hdeps
      have := Option.some.inj hdeps
      rcases hbadS with h | h <;> rw [this] at h <;> simp at h
    | failed =>
      exfalso
      have hdeps := (hinvF.2.1 _ (hmemF ib hib) hst).2 (defs.get ⟨ia, hia⟩).id
        (by rw [hdepF ib hib]; exact hdep)
      rw [hstat ia hia] at hdeps
      have := Option.some.inj hdeps
      rcases hbadS with h | h <;> rw [this] at h <;> simp at h
  · intro ic
    induction ic using Nat.strong_induction_on with
    | _ ic ih =>
      intro hic horc htrans
      rw [hstat ic hic]
      cases hst : ((executeWorkflow oracle defs).getD ic dummyStep).status with
      | pending => have := htermF ic hic; rw [hst] at this; simp [isTerminal] at this
      | running => have := htermF ic hic; rw [hst] at this; simp [isTerminal] at this
      | completed => rfl
      | failed =>
        exfalso
        have hfailinv := (hinvF.2.1 _ (hmemF ic hic) hst).1
        rw [hFid ic hic] at hfailinv
        rw [horc] at hfailinv
        simp at hfailinv
      | skipped =>
        exfalso
        obtain ⟨d, hd, hbadd⟩ := hinvF.2.2.1 _ (hmemF ic hic) hst
        rw [hdepF ic hic] at hd
        obtain ⟨j, hj, hji, hjid⟩ := hwf ic hic d hd
        have hdirect : TransDep defs (defs.get ⟨ic, hic⟩).id d :=
          TransDep.direct (List.get_mem defs ic hic) rfl hd
        have horcj : oracle (defs.get ⟨j, hj⟩).id = true := by
          rw [hjid]
          exact htrans d hdirect
        have htransj : ∀ e, TransDep defs (defs.get ⟨j, hj⟩).id e → oracle e = true := by
          intro e he
          rw [hjid] at he
          exact htrans e (TransDep.tail hdirect he)
        have hcomp := ih j hji hj horcj htransj
        rw [hstat j hj] at hcomp
        have hjstat := Option.some.inj hcomp
        rw [← hjid, ← hFid j hj] at hbadd
        have hds := depStatus_nodup _ hndF j (by omega)
        rw [hds] at hbadd
        rcases hbadd with h | h <;>
          rw [hjstat] at h <;> simp at h

/-- A concrete three-step DAG for the C7 witness: `a` and `c` are
independent roots, `b` depends on `a`. -/
def wDefs : List StepDef :=
  [{ id := "a" }, { id := "c" }, { id := "b", dependsOn := ["a"] }]

/-- The witness oracle: step `a` fails, everything else succeeds. -/
def wOracle : String → Bool := fun i => !(i == "a")

/-- Nothing is a transitive dependency of step `c`. -/
theorem wDefs_c_no_deps : ∀ b d, TransDep wDefs b d → b = "c" → False := by
  intro b d h
  induction h with
  | direct hs hid hd =>
    intro hbc
    fin_cases hs <;> simp_all [wDefs]
  | tail h1 h2 ih1 ih2 =>
    intro hbc
    exact ih1 hbc

/-- C7 witness: on the concrete DAG with `a` failing, `b` (dependent on
`a`) ends skipped while the independent `c` ends completed. -/
theorem executeWorkflow_failure_propagation_witness :
    WellFormedDefs wDefs ∧
    depStatus (executeWorkflow wOracle wDefs) "b" = some .skipped ∧
    depStatus (executeWorkflow wOracle wDefs) "c" = some .completed := by
  have hwf : WellFormedDefs wDefs := by
    constructor
    · decide
    · intro i hi d hd
      have hi3 : i < 3 := by simpa [wDefs] using hi
      interval_cases i
      · simp [wDefs] at hd
      · simp [wDefs] at hd
      · simp [wDefs] at hd
        subst hd
        exact ⟨0, by decide, by decide, rfl⟩
  have h := executeWorkflow_failure_propagation wOracle wDefs hwf
  refine ⟨hwf, ?_, ?_⟩
  · have hA := h.1 0 2 (by decide) (by decide) (by decide) (Or.inl (by decide))
    exact hA
  · have hB := h.2 1 (by decide) (by decide) ?_
    · exact hB
    · intro d hd
      exact (wDefs_c_no_deps _ d hd rfl).elim

end Startups
